import Mathlib

/-!
Verification development for the open-source-deadlines-data extractor.

The Python sources (src/extractor/ai_agent.py, extract_activity.py,
extract_for_actions.py) are shallowly embedded below.  JSON-ish Python
values are modelled by `JValue`; Python truthiness, `isinstance` checks
(with `bool` a subtype of `int`), `dict.get`, iteration and subscripting
are modelled by explicit total functions, with `Option` capturing raised
exceptions where an operation can raise.
-/

/-- JSON-like value as produced by json.loads / yaml.safe_load. -/
inductive JValue where
  | null
  | bool (b : Bool)
  | int (n : Int)
  | str (s : String)
  | arr (items : List JValue)
  | obj (fields : List (String × JValue))

/-- Python truthiness of a value. -/
def truthy : JValue → Bool
  | .null => false
  | .bool b => b
  | .int n => n != 0
  | .str s => s != ""
  | .arr items => !items.isEmpty
  | .obj fields => !fields.isEmpty

/-- Python isinstance(v, str). -/
def isStrInst : JValue → Bool
  | .str _ => true
  | _ => false

/-- Python isinstance(v, int); note that Python bools are ints. -/
def isIntInst : JValue → Bool
  | .int _ => true
  | .bool _ => true
  | _ => false

/-- Python isinstance(v, list). -/
def isListInst : JValue → Bool
  | .arr _ => true
  | _ => false

/-- Lookup of a key in a dict, Python dict.get with default None. -/
def getField (fields : List (String × JValue)) (key : String) : JValue :=
  match fields.lookup key with
  | some v => v
  | none => .null

/-- Error string appended at ai_agent.py line 285. -/
def titleErr : String := "Missing or invalid title"

/-- Error string appended at ai_agent.py line 288. -/
def descErr : String := "Missing or invalid description"

/-- Error string appended at ai_agent.py line 291. -/
def categoryErr : String := "Invalid category (must be conference, competition, or activity)"

/-- Error string appended at ai_agent.py line 294. -/
def tagsErr : String := "Tags must be a non-empty array"

/-- Error string appended at ai_agent.py line 297. -/
def eventsErr : String := "Events must be a non-empty array"

/-- Error string appended at ai_agent.py line 302. -/
def missingIdErr (i : Nat) : String := "Event " ++ toString i ++ ": Missing or invalid id"

/-- Error string appended at ai_agent.py line 304. -/
def dupIdErr (i : Nat) (s : String) : String :=
  "Event " ++ toString i ++ ": Duplicate ID \x27" ++ s ++ "\x27"

/-- Error string appended at ai_agent.py line 307. -/
def yearErr (i : Nat) : String := "Event " ++ toString i ++ ": Missing or invalid year"

/-- Error string appended at ai_agent.py line 310. -/
def linkErr (i : Nat) : String := "Event " ++ toString i ++ ": Missing or invalid link"

/-- Error string appended at ai_agent.py line 313. -/
def timelineErr (i : Nat) : String := "Event " ++ toString i ++ ": Timeline must be a non-empty array"

/-- Error string appended at ai_agent.py line 316. -/
def timezoneErr (i : Nat) : String := "Event " ++ toString i ++ ": Missing or invalid timezone"

/-- Python test `data.get('category') not in ['conference', 'competition', 'activity']`,
negated: true when the category value equals one of the three strings. -/
def categoryOk : JValue → Bool
  | .str c => c = "conference" || c = "competition" || c = "activity"
  | _ => false

/-- Python test `isinstance(v, list) and len(v) > 0`. -/
def nonEmptyList : JValue → Bool
  | .arr l => !l.isEmpty
  | _ => false

/-- Errors produced by the id checks for one event (ai_agent.py lines 301-304):
the duplicate-ID check is an `elif` of the missing-or-invalid-id check, so at
most one of the two errors is appended. -/
def idSegment (existing_ids : List String) (i : Nat) (ev : List (String × JValue)) : List String :=
  if !(truthy (getField ev "id") && isStrInst (getField ev "id")) then [missingIdErr i]
  else
    match getField ev "id" with
    | .str s => if existing_ids.contains s then [dupIdErr i s] else []
    | _ => []

/-- Errors produced for a single event object: the body of the `for index, event`
loop of validate_extracted_data (ai_agent.py lines 300-316). -/
def checkEvent (existing_ids : List String) (i : Nat) (ev : List (String × JValue)) : List String :=
  idSegment existing_ids i ev ++
  (if !(truthy (getField ev "year") && isIntInst (getField ev "year")) then [yearErr i] else []) ++
  (if !(truthy (getField ev "link") && isStrInst (getField ev "link")) then [linkErr i] else []) ++
  (if !(nonEmptyList (getField ev "timeline")) then [timelineErr i] else []) ++
  (if !(truthy (getField ev "timezone") && isStrInst (getField ev "timezone")) then [timezoneErr i] else [])

/-- Sequential run of the event loop starting at index `i`.  Calling `.get`
on a non-dict event raises AttributeError, which propagates out of
validate_extracted_data; that is modelled by `none`. -/
def checkEventsFrom (existing_ids : List String) : Nat → List JValue → Option (List String)
  | _, [] => some []
  | i, ev :: rest =>
    match ev with
    | .obj fs =>
      (checkEventsFrom existing_ids (i + 1) rest).map (fun es => checkEvent existing_ids i fs ++ es)
    | _ => none

/-- Result dict of validate_extracted_data (ai_agent.py lines 318-322). -/
structure ValidationResult where
  valid : Bool
  errors : Option (List String)
  warnings : Option (List String)
deriving Repr, DecidableEq

/-- Packaging of the returned dict: `valid` is `len(errors) == 0`, the errors
list is replaced by None when empty, warnings are always empty hence None. -/
def mkValidation (errs : List String) : ValidationResult :=
  { valid := errs.isEmpty
    errors := if errs.isEmpty then none else some errs
    warnings := none }

/-- Errors of a result, with None read as the empty list. -/
def errorsOf (r : ValidationResult) : List String := r.errors.getD []

/-- Top-level (non-event) errors of validate_extracted_data
(ai_agent.py lines 284-297), in order of appearance. -/
def topErrors (fs : List (String × JValue)) : List String :=
  (if !(truthy (getField fs "title") && isStrInst (getField fs "title")) then [titleErr] else []) ++
  (if !(truthy (getField fs "description") && isStrInst (getField fs "description")) then [descErr] else []) ++
  (if !(categoryOk (getField fs "category")) then [categoryErr] else []) ++
  (if !(nonEmptyList (getField fs "tags")) then [tagsErr] else []) ++
  (if !(nonEmptyList (getField fs "events")) then [eventsErr] else [])

/-- Body of validate_extracted_data for a dict argument: the top-level checks
followed by the event loop, which runs only when the events value is a list
(ai_agent.py line 299). -/
def validateObj (fs : List (String × JValue)) (existing_ids : List String) :
    Option ValidationResult :=
  match getField fs "events" with
  | .arr evs =>
    (checkEventsFrom existing_ids 0 evs).map (fun evErrs => mkValidation (topErrors fs ++ evErrs))
  | _ => some (mkValidation (topErrors fs))

/-- Model of AIAgentService.validate_extracted_data (ai_agent.py lines 273-322).
A non-dict argument, or a non-dict element of the events list, makes the Python
function raise; that is modelled by `none`. -/
def validate_extracted_data : JValue → List String → Option ValidationResult
  | .obj fs, existing_ids => validateObj fs existing_ids
  | _, _ => none

/-- Concrete timeline used by the sample records (the end-to-end scenario of the spec). -/
def sampleTimeline : JValue :=
  .arr [.obj [("deadline", .str "2025-06-01T00:00:00"), ("comment", .str "start")],
        .obj [("deadline", .str "2025-09-30T23:59:59"), ("comment", .str "end")]]

/-- Concrete event with a chosen year value and id value, all other fields valid. -/
def sampleEventWith (y idv : JValue) : List (String × JValue) :=
  [("year", y), ("id", idv), ("link", .str "https://e.org"),
   ("timeline", sampleTimeline),
   ("timezone", .str "Asia/Shanghai"), ("date", .str "d"), ("place", .str "online")]

/-- Concrete event with a chosen id string, all other fields valid. -/
def sampleEvent (s : String) : List (String × JValue) :=
  sampleEventWith (.int 2025) (.str s)

/-- Concrete record wrapping one event, all top-level fields valid. -/
def recordWithEvent (ev : List (String × JValue)) : JValue :=
  .obj [("title", .str "Open Source Summer"), ("description", .str "desc"),
        ("category", .str "competition"), ("tags", .arr [.str "a"]),
        ("events", .arr [.obj ev])]

/-- Concrete fully valid record, parametric in the single event id. -/
def sampleData (s : String) : JValue := recordWithEvent (sampleEvent s)

/-- Concrete record whose event has year 0 and is otherwise fully valid. -/
def yearZeroData : JValue := recordWithEvent (sampleEventWith (.int 0) (.str "x-2025"))

/-- Concrete record with no title, no category, valid description and tags,
and one otherwise-valid event. -/
def noTitleData (s : String) : JValue :=
  .obj [("description", .str "d"), ("tags", .arr [.str "t"]),
        ("events", .arr [.obj (sampleEvent s)])]

/-- Python character class \s (ASCII range) used by the whitespace regex. -/
def isSpaceChar (c : Char) : Bool :=
  c = ' ' || c = '\t' || c = '\n' || c = '\r' || c = '\x0b' || c = '\x0c'

/-- Python word character (ASCII range) for the \b boundary after the tag name. -/
def isWordChar (c : Char) : Bool := c.isAlphanum || c = '_'

/-- Case-insensitive match of a lowercase pattern against the start of a list. -/
def matchCI : List Char → List Char → Bool
  | [], _ => true
  | _ :: _, [] => false
  | p :: ps, c :: cs => (c.toLower = p) && matchCI ps cs

/-- Test for the regex word boundary \b right after the tag name: the next
character, if any, is not a word character. -/
def boundaryOk : List Char → Bool
  | [] => true
  | c :: _ => !isWordChar c

/-- Test for a close tag `</tag>` (case-insensitive tag name) at the current
position: `<`, `/`, the tag name, `>`. -/
def closeAt (tag : List Char) (l : List Char) : Bool :=
  match l with
  | c :: d :: rest =>
    c = '<' && d = '/' && matchCI tag rest && ((rest.drop tag.length).head? == some '>')
  | _ => false

/-- Scan for the first close tag `</tag>` (case-insensitive): returns the
number of characters up to and including it, none when absent.  This models
how the block regexes of fetch_web_content (ai_agent.py lines 100-101)
extend a match: after the open tag, the regex consumes text up to and
including the first following close tag, and the whole match fails if
there is none. -/
def findCloseLen (tag : List Char) : List Char → Option Nat
  | [] => none
  | c :: rest =>
    if closeAt tag (c :: rest) then some (tag.length + 3)
    else (findCloseLen tag rest).map (· + 1)

/-- Model of one block-stripping pass of fetch_web_content: removes every
`<tag ... </tag>` block (case-insensitive, with the regex word boundary
after the tag name, extending to the first close tag); an open tag with no
close tag is left in place and handled by the later tag-stripping pass. -/
def stripBlocks (tag : List Char) (l : List Char) : List Char :=
  match l with
  | [] => []
  | c :: rest =>
    if c = '<' ∧ matchCI tag rest = true ∧ boundaryOk (rest.drop tag.length) = true then
      match findCloseLen tag (rest.drop tag.length) with
      | some n => stripBlocks tag ((rest.drop tag.length).drop n)
      | none => c :: stripBlocks tag rest
    else c :: stripBlocks tag rest
termination_by l.length
decreasing_by
  all_goals simp only [List.length_cons, List.length_drop]
  all_goals omega

/-- Position of the first `>` in the list, none when absent. -/
def findGtLen : List Char → Option Nat
  | [] => none
  | c :: rest => if c = '>' then some 0 else (findGtLen rest).map (· + 1)

/-- Model of the tag-replacing pass `re.sub(r'<[^>]+>', ' ', text)` of
fetch_web_content (ai_agent.py line 103): every `<...>` span with a
non-empty body and no inner `>` becomes one space; a lone `<>` or an
unclosed `<` is left in place. -/
def stripTags (l : List Char) : List Char :=
  match l with
  | [] => []
  | c :: rest =>
    if c = '<' then
      match findGtLen rest with
      | some n => if n = 0 then c :: stripTags rest else ' ' :: stripTags (rest.drop (n + 1))
      | none => c :: stripTags rest
    else c :: stripTags rest
termination_by l.length
decreasing_by
  all_goals simp only [List.length_cons, List.length_drop]
  all_goals omega

/-- Model of `re.sub(r'\s+', ' ', text)` (ai_agent.py line 105): every maximal
run of whitespace becomes a single space. -/
def collapseWs (l : List Char) : List Char :=
  match l with
  | [] => []
  | c :: rest =>
    if isSpaceChar c then ' ' :: collapseWs (rest.dropWhile isSpaceChar)
    else c :: collapseWs rest
termination_by l.length
decreasing_by
  · exact Nat.lt_succ_of_le (List.dropWhile_sublist _).length_le
  · simp only [List.length_cons]; omega

/-- Python str.strip of leading whitespace. -/
def pyStripLeft (l : List Char) : List Char := l.dropWhile isSpaceChar

/-- Python str.strip of trailing whitespace. -/
def pyStripRight (l : List Char) : List Char := (l.reverse.dropWhile isSpaceChar).reverse

/-- Model of `re.sub(r'\s+', ' ', text).strip()` (ai_agent.py line 105). -/
def normSpace (l : List Char) : List Char := pyStripRight (pyStripLeft (collapseWs l))

/-- Tag name of the script-block pass. -/
def scriptTag : List Char := "script".data

/-- Tag name of the style-block pass. -/
def styleTag : List Char := "style".data

/-- Model of the HTML-cleaning portion of fetch_web_content (ai_agent.py lines
100-107): strip script blocks, then style blocks, then replace every remaining
tag by a space, then collapse whitespace runs and trim.  The HTTP transfer
itself is an external collaborator and is not part of this function. -/
def fetch_web_content_clean (html : String) : String :=
  String.mk (normSpace (stripTags (stripBlocks styleTag (stripBlocks scriptTag html.data))))

/-- Relation forbidding two adjacent whitespace characters; chained over a
string it says every whitespace occurrence is isolated. -/
def noDoubleWs (a b : Char) : Prop := ¬(isSpaceChar a = true ∧ isSpaceChar b = true)

/-- Python slicing s[:n] by characters. -/
def pyTake (n : Nat) (s : String) : String := String.mk (s.data.take n)

/-- Python str.lower by characters. -/
def pyLower (s : String) : String := String.mk (s.data.map Char.toLower)

/-- Tag hint embedded in the system prompt (ai_agent.py line 195):
the first 20 known tags joined by the enumeration comma, or a fixed
no-tags marker when the list is empty. -/
def tagHint (existing_tags : List String) : String :=
  if existing_tags.isEmpty then "无"
  else String.intercalate "、" (existing_tags.take 20)

/-- Id hint embedded in the system prompt (ai_agent.py line 196): the first
10 known ids joined by the enumeration comma, with the and-more marker
appended when more than 10 ids exist, or a fixed no-ids marker when empty. -/
def idHint (existing_ids : List String) : String :=
  if existing_ids.isEmpty then "无"
  else
    String.intercalate "、" (existing_ids.take 10) ++
      (if existing_ids.length > 10 then "等" else "")

/-- Hint line of the system prompt carrying the tag hint (ai_agent.py line
195); the surrounding fixed instruction template is content-independent. -/
def tagHintLine (existing_tags : List String) : String :=
  "【标签建议】（优先使用）：" ++ tagHint existing_tags

/-- Hint line of the system prompt carrying the id hint (ai_agent.py line 196). -/
def idHintLine (existing_ids : List String) : String :=
  "【已存在ID】（避免重复）：" ++ idHint existing_ids

/-- User prompt of extract_activity_info (ai_agent.py lines 219-222): embeds
the source URL when extracting from a URL, and the first 8000 characters of
the content. -/
def user_prompt (content source_url : String) : String :=
  if source_url ≠ "" then
    "请从以下网页内容中提取活动信息：\n\n来源URL: " ++ source_url ++ "\n\n内容：\n" ++
      pyTake 8000 content
  else
    "请从以下内容中提取活动信息：\n\n" ++ pyTake 8000 content

/-- Result dict of the extraction entry points: success flag, error message,
extracted data and warnings, each key possibly absent. -/
structure Outcome where
  success : Bool
  error : Option String
  data : Option JValue
  warnings : Option (List String)

/-- Display name of the provider (ai_agent.py lines 133-141). -/
def providerName (provider : String) : String :=
  if provider = "github" then "GitHub Models"
  else if provider = "dashscope" then "DashScope"
  else "OpenAI"

/-- Credential environment variable of the provider (ai_agent.py lines 133-141). -/
def providerEnvVar (provider : String) : String :=
  if provider = "github" then "GITHUB_TOKEN"
  else if provider = "dashscope" then "DASHSCOPE_API_KEY"
  else "OPENAI_API_KEY"

/-- Outcome returned by extract_activity_info when the provider credential is
absent (ai_agent.py lines 142-145). -/
def configErrorOutcome (provider : String) : Outcome :=
  { success := false
    error := some (providerName provider ++ " API key not configured. Please set " ++
      providerEnvVar provider ++ " environment variable.")
    data := none
    warnings := none }

/-- Validation-and-return tail of extract_activity_info (ai_agent.py lines
249-265): run the validator on the parsed response and package the outcome.
On failure the error message is the semicolon-joined error list; `none`
models the validator raising (caught at line 267 with a message built from
the Python exception text, which is not modelled). -/
def extract_activity_result (extracted_data : JValue) (existing_ids : List String) :
    Option Outcome :=
  (validate_extracted_data extracted_data existing_ids).map (fun v =>
    if v.valid then
      { success := true, error := none, data := some extracted_data, warnings := v.warnings }
    else
      { success := false
        error := some (String.intercalate "; " (v.errors.getD []))
        data := none
        warnings := v.warnings })

/-- Network operations the pipeline may attempt. -/
inductive NetCall where
  | fetch
  | completion
deriving Repr, DecidableEq

/-- External collaborators of one extraction run, as data: the selected
provider, whether its credential is configured (self.openai is non-None),
and the results of the fetch, of the completion call, and of json.loads. -/
structure AgentEnv where
  provider : String
  hasKey : Bool
  fetchResult : Option String
  completionResult : Option (Option String)
  parsed : Option JValue

/-- Model of extract_activity_info (ai_agent.py lines 122-271) as the ordered
list of network calls attempted plus the outcome.  The credential check at
line 132 precedes the completion call; `none` as outcome models the paths
whose message is built from Python exception text (completion failure, empty
response, json parse failure, validator exception). -/
def extract_activity_info_run (env : AgentEnv) (content source_url : String)
    (existing_tags existing_ids : List String) : List NetCall × Option Outcome :=
  if env.hasKey = false then
    ([], some (configErrorOutcome env.provider))
  else
    match env.completionResult with
    | none => ([NetCall.completion], none)
    | some none => ([NetCall.completion], none)
    | some (some _) =>
      match env.parsed with
      | none => ([NetCall.completion], none)
      | some d => ([NetCall.completion], extract_activity_result d existing_ids)

/-- Model of extract_from_url (ai_agent.py lines 42-61): the web fetch is
awaited first (line 55), then extract_activity_info runs on the cleaned
content; a fetch exception is caught at line 57 (outcome message built from
exception text, modelled as none). -/
def extract_from_url_run (env : AgentEnv) (url : String)
    (existing_tags existing_ids : List String) : List NetCall × Option Outcome :=
  match env.fetchResult with
  | none => ([NetCall.fetch], none)
  | some html =>
    let res := extract_activity_info_run env (fetch_web_content_clean html) url
      existing_tags existing_ids
    (NetCall.fetch :: res.1, res.2)

/-- Image extensions recognized by process_file_content (ai_agent.py line 113). -/
def image_extensions : List String := [".jpg", ".jpeg", ".png", ".gif", ".bmp", ".webp"]

/-- Model of process_file_content (ai_agent.py lines 109-120). -/
def process_file_content (file_content file_name : String) : String :=
  if image_extensions.any (fun ext => (pyLower file_name).endsWith ext) then
    "[Image file: " ++ file_name ++ ". OCR processing would be applied here in production.]"
  else file_content

/-- Model of extract_from_file (ai_agent.py lines 63-83): no fetch occurs;
the file content is processed locally, then extract_activity_info runs. -/
def extract_from_file_run (env : AgentEnv) (file_content file_name : String)
    (existing_tags existing_ids : List String) : List NetCall × Option Outcome :=
  extract_activity_info_run env (process_file_content file_content file_name) ""
    existing_tags existing_ids

/-- Python equality of a value against a string (used by `in` on a list). -/
def jvEqStr (key : String) : JValue → Bool
  | .str s => s = key
  | _ => false

/-- Python equality between hashable scalar values, with bools equal to the
ints 0 and 1 as in Python. -/
def jvScalarBeq : JValue → JValue → Bool
  | .null, .null => true
  | .bool a, .bool b => a == b
  | .int a, .int b => a == b
  | .str a, .str b => a == b
  | .bool a, .int b => (if a then (1 : Int) else 0) == b
  | .int a, .bool b => a == (if b then (1 : Int) else 0)
  | _, _ => false

/-- Python iteration `for x in v`: lists yield elements, strings yield
one-character strings, dicts yield their keys; other values raise. -/
def pyIter : JValue → Option (List JValue)
  | .arr l => some l
  | .str s => some (s.data.map (fun c => .str (String.mk [c])))
  | .obj fs => some (fs.map (fun p => .str p.1))
  | _ => none

/-- Python `key in v` for a string key: key test on dicts, substring test on
strings, element test on lists; other values raise. -/
def pyContains (v : JValue) (key : String) : Option Bool :=
  match v with
  | .obj fs => some (fs.any (fun p => p.1 = key))
  | .str s => some (decide (key.data <:+: s.data))
  | .arr l => some (l.any (jvEqStr key))
  | _ => none

/-- Python `v[key]` for a string key: dict lookup (raising KeyError when the
key is absent); subscripting a non-dict with a string raises. -/
def pySubscript (v : JValue) (key : String) : Option JValue :=
  match v with
  | .obj fs => fs.lookup key
  | _ => none

/-- Python set.add: lists and dicts are unhashable and raise; otherwise the
element is added unless an equal element is present. -/
def pySetAdd (s : List JValue) (v : JValue) : Option (List JValue) :=
  match v with
  | .arr _ => none
  | .obj _ => none
  | _ => some (if s.any (fun x => jvScalarBeq x v) then s else s ++ [v])

/-- Elementwise part of Python set.update: elements are added one at a time,
and an unhashable element aborts with the earlier additions kept. -/
def pySetAddAll (s : List JValue) : List JValue → List JValue × Bool
  | [] => (s, false)
  | v :: rest =>
    match pySetAdd s v with
    | some s2 => pySetAddAll s2 rest
    | none => (s, true)

/-- Python set.update(x): iterate x and add each element; a non-iterable x
raises before any addition. -/
def pySetUpdate (s : List JValue) (x : JValue) : List JValue × Bool :=
  match pyIter x with
  | none => (s, true)
  | some l => pySetAddAll s l

/-- Accumulated sets of load_existing_data: all_tags and all_ids. -/
structure LoadState where
  tags : List JValue
  ids : List JValue

/-- Inner loop of load_existing_data over one item's events
(extract_activity.py lines 46-49), with Python exception semantics: the
second component records whether an exception was raised, in which case the
additions made so far are kept (the sets are mutated in place). -/
def processEvents (ids : List JValue) : List JValue → List JValue × Bool
  | [] => (ids, false)
  | ev :: rest =>
    match pyContains ev "id" with
    | none => (ids, true)
    | some false => processEvents ids rest
    | some true =>
      match pySubscript ev "id" with
      | none => (ids, true)
      | some idv =>
        match pySetAdd ids idv with
        | none => (ids, true)
        | some ids2 => processEvents ids2 rest

/-- Tag-collection half of the item loop of load_existing_data
(extract_activity.py lines 40-44): `if \x27tags\x27 in item: all_tags.update(item[\x27tags\x27])`,
with in-place mutation preserved when an exception is raised part-way. -/
def processItemTags (st : LoadState) (item : JValue) : LoadState × Bool :=
  match pyContains item "tags" with
  | none => (st, true)
  | some ht =>
    if ht then
      match pySubscript item "tags" with
      | none => (st, true)
      | some tv =>
        let r := pySetUpdate st.tags tv
        ({ st with tags := r.1 }, r.2)
    else (st, false)

/-- Event-id half of the item loop (extract_activity.py lines 45-49). -/
def processItemEvents (st : LoadState) (item : JValue) : LoadState × Bool :=
  match pyContains item "events" with
  | none => (st, true)
  | some he =>
    if he then
      match pySubscript item "events" with
      | none => (st, true)
      | some ev =>
        match pyIter ev with
        | none => (st, true)
        | some evl =>
          let r := processEvents st.ids evl
          ({ st with ids := r.1 }, r.2)
    else (st, false)

/-- Body of the item loop of load_existing_data (extract_activity.py lines
40-49): collect tags, then event ids; an exception in the tag half skips the
event half, and mutations made before the exception are kept. -/
def processItem (st : LoadState) (item : JValue) : LoadState × Bool :=
  match processItemTags st item with
  | (st1, true) => (st1, true)
  | (st1, false) => processItemEvents st1 item

/-- Item loop of one file: stops at the first exception, keeping the state
accumulated so far. -/
def processItems (st : LoadState) : List JValue → LoadState × Bool
  | [] => (st, false)
  | item :: rest =>
    match processItem st item with
    | (st2, true) => (st2, true)
    | (st2, false) => processItems st2 rest

/-- Processing of one store file (extract_activity.py lines 33-51): a file
whose yaml parse raises is `none`; a falsy document is skipped silently;
otherwise the document is iterated.  The Bool records whether the per-file
`except` clause fired, printing a warning. -/
def processFile (st : LoadState) (file : Option JValue) : LoadState × Bool :=
  match file with
  | none => (st, true)
  | some data =>
    if truthy data = false then (st, false)
    else
      match pyIter data with
      | none => (st, true)
      | some items => processItems st items

/-- File loop of load_existing_data, recording the indices of files whose
processing raised (each produces one warning line). -/
def processFiles (st : LoadState) (w : List Nat) (i : Nat) :
    List (Option JValue) → LoadState × List Nat
  | [] => (st, w)
  | f :: rest =>
    match processFile st f with
    | (st2, warned) => processFiles st2 (if warned then w ++ [i] else w) (i + 1) rest

/-- Sort key of a string element of a Python set. -/
def jvKeyStr : JValue → Option String
  | .str s => some s
  | _ => none

/-- Sort key of a numeric element of a Python set (bools sort as 0 and 1). -/
def jvKeyNum : JValue → Option Int
  | .int n => some n
  | .bool b => some (if b then 1 else 0)
  | _ => none

/-- Lexicographic string comparison by code points, as Python compares
strings. -/
def strLeB : List Char → List Char → Bool
  | [], _ => true
  | _ :: _, [] => false
  | a :: as, b :: bs => if a = b then strLeB as bs else decide (a < b)

/-- Order on set elements used by sorted() for all-string collections. -/
def jvStrLe (a b : JValue) : Prop :=
  strLeB ((jvKeyStr a).getD "").data ((jvKeyStr b).getD "").data = true

instance : DecidableRel jvStrLe := fun a b => by unfold jvStrLe; infer_instance

/-- Order on set elements used by sorted() for all-numeric collections. -/
def jvNumLe (a b : JValue) : Prop :=
  (jvKeyNum a).getD 0 ≤ (jvKeyNum b).getD 0

instance : DecidableRel jvNumLe := fun a b => by unfold jvNumLe; infer_instance

/-- Python sorted() over the collected set: all-string and all-numeric
collections sort; a mixed collection raises TypeError on comparison. -/
def pySorted (l : List JValue) : Option (List JValue) :=
  if l.all (fun v => (jvKeyStr v).isSome) then
    some (l.insertionSort jvStrLe)
  else if l.all (fun v => (jvKeyNum v).isSome) then
    some (l.insertionSort jvNumLe)
  else none

/-- Model of load_existing_data (extract_activity.py lines 19-53 and the
identical copy in extract_for_actions.py lines 23-45): a directory is a list
of files, each either a parsed document or a yaml-level parse failure
(`none`).  Returns the sorted tag and id collections and the warned file
indices; `none` models the final sorted() raising on a mixed-type
collection. -/
def load_existing_data (files : List (Option JValue)) :
    Option (List JValue × List JValue × List Nat) :=
  match processFiles { tags := [], ids := [] } [] 0 files with
  | (st, w) =>
    match pySorted st.tags with
    | none => none
    | some ts =>
      match pySorted st.ids with
      | none => none
      | some is2 => some (ts, is2, w)

/-- Well-formed event of a store item: a dict whose id, when present, is a
string. -/
def wfEvent : JValue → Bool
  | .obj efs =>
    (match efs.lookup "id" with
     | some (.str _) => true
     | some _ => false
     | none => true)
  | _ => false

/-- Well-formed item of a store file: a dict whose tags value, when present,
is a list of strings, and whose events value, when present, is a list of
well-formed events. -/
def wfItem : JValue → Bool
  | .obj fs =>
    (match fs.lookup "tags" with
     | some (.arr ts) => ts.all isStrInst
     | some _ => false
     | none => true) &&
    (match fs.lookup "events" with
     | some (.arr evs) => evs.all wfEvent
     | some _ => false
     | none => true)
  | _ => false

/-- Well-formed store file: unparseable, falsy, or a list of well-formed
items. -/
def wfFile : Option JValue → Bool
  | none => true
  | some v =>
    !truthy v ||
      (match v with
       | .arr items => items.all wfItem
       | _ => false)

/-- String tags of one item of a well-formed file. -/
def itemTags : JValue → List String
  | .obj fs =>
    (match fs.lookup "tags" with
     | some (.arr ts) => ts.filterMap jvKeyStr
     | _ => [])
  | _ => []

/-- Id of one event of a well-formed file, when present. -/
def eventIdOf : JValue → List String
  | .obj efs =>
    (match efs.lookup "id" with
     | some (.str s) => [s]
     | _ => [])
  | _ => []

/-- String event ids of one item of a well-formed file. -/
def itemIds : JValue → List String
  | .obj fs =>
    (match fs.lookup "events" with
     | some (.arr evs) => (evs.map eventIdOf).flatten
     | _ => [])
  | _ => []

/-- Tags contributed by one store file when it is well-formed. -/
def fileTags (file : Option JValue) : List String :=
  match file with
  | some (.arr items) => (items.map itemTags).flatten
  | _ => []

/-- Event ids contributed by one store file when it is well-formed. -/
def fileIds (file : Option JValue) : List String :=
  match file with
  | some (.arr items) => (items.map itemIds).flatten
  | _ => []

/-- Python str() of a value as interpolated into an f-string, for the scalar
values that occur in the fields serialized by to_yaml; the renderings of
lists and dicts are never needed by the theorems below and are left
unmodelled. -/
def pyRender : JValue → Option String
  | .null => some "None"
  | .bool b => some (if b then "True" else "False")
  | .int n => some (toString n)
  | .str s => some s
  | .arr _ => none
  | .obj _ => none

/-- One timeline entry as rendered and re-parsed: its deadline and comment
texts. -/
structure PTimelineE where
  deadline : String
  comment : String
deriving DecidableEq

/-- One event as rendered and re-parsed: the rendered year, id, link,
timezone, date and place texts and the timeline entries. -/
structure PEventR where
  year : String
  id : String
  link : String
  timezone : String
  date : String
  place : String
  timeline : List PTimelineE
deriving DecidableEq

/-- One record as rendered and re-parsed. -/
structure PRecord where
  title : String
  description : String
  category : String
  tags : List String
  events : List PEventR
deriving DecidableEq

/-- Projection of the raw dict to the texts to_yaml interpolates for one
timeline entry (ai_agent.py lines 343-345): `timeline[\x27deadline\x27]` and
`timeline[\x27comment\x27]` are raw subscripts, raising KeyError when the key
is absent. -/
def projTimelineEntry (tl : JValue) : Option PTimelineE := do
  let d ← pySubscript tl "deadline"
  let ds ← pyRender d
  let c ← pySubscript tl "comment"
  let cs2 ← pyRender c
  pure ⟨ds, cs2⟩

/-- Projection of the raw dict to the texts to_yaml interpolates for one
event (ai_agent.py lines 338-348): every field is a raw subscript, including
`date` and `place`, which validate_extracted_data never checks. -/
def projEvent (ev : JValue) : Option PEventR := do
  let y ← pySubscript ev "year"
  let ys ← pyRender y
  let i ← pySubscript ev "id"
  let ids3 ← pyRender i
  let l ← pySubscript ev "link"
  let ls3 ← pyRender l
  let tlv ← pySubscript ev "timeline"
  let tll ← pyIter tlv
  let tls ← tll.mapM projTimelineEntry
  let tz ← pySubscript ev "timezone"
  let tzs ← pyRender tz
  let da ← pySubscript ev "date"
  let das ← pyRender da
  let p ← pySubscript ev "place"
  let pls ← pyRender p
  pure ⟨ys, ids3, ls3, tzs, das, pls, tls⟩

/-- Projection of the raw dict to the texts to_yaml interpolates
(ai_agent.py lines 330-348). -/
def projRecord (data : JValue) : Option PRecord := do
  let t ← pySubscript data "title"
  let ts ← pyRender t
  let d ← pySubscript data "description"
  let ds ← pyRender d
  let c ← pySubscript data "category"
  let cs2 ← pyRender c
  let tagsv ← pySubscript data "tags"
  let tagl ← pyIter tagsv
  let tags ← tagl.mapM pyRender
  let evv ← pySubscript data "events"
  let evl ← pyIter evv
  let evs ← evl.mapM projEvent
  pure ⟨ts, ds, cs2, tags, evs⟩

/-- The two yaml_lines appended for one timeline entry (ai_agent.py lines
344-345), with the interpolated text in quotes. -/
def tlLines (t : PTimelineE) : List String :=
  ["        - deadline: \x27" ++ (t.deadline ++ "\x27"),
   "          comment: \x27" ++ (t.comment ++ "\x27")]

/-- The yaml_lines appended for one event (ai_agent.py lines 339-348). -/
def eventLines (e : PEventR) : List String :=
  ["    - year: " ++ e.year, "      id: " ++ e.id, "      link: " ++ e.link,
   "      timeline:"] ++
  ((e.timeline.map tlLines).flatten ++
   ["      timezone: " ++ e.timezone, "      date: " ++ e.date,
    "      place: " ++ e.place])

/-- All yaml_lines of one record (ai_agent.py lines 330-348). -/
def recordLines (r : PRecord) : List String :=
  ["- title: " ++ r.title, "  description: " ++ r.description,
   "  category: " ++ r.category, "  tags:"] ++
  (r.tags.map (fun t => "    - " ++ t) ++
   ("  events:" :: (r.events.map eventLines).flatten))

/-- Python \x27\n\x27.join. -/
def joinNl : List String → String
  | [] => ""
  | [l] => l
  | l :: rest => l ++ "\n" ++ joinNl rest

/-- Model of to_yaml (ai_agent.py lines 324-350): interpolate the record's
fields line by line and join with newlines; `none` models a raised KeyError
(or TypeError) while the lines are being built. -/
def to_yaml (data : JValue) : Option String := do
  let r ← projRecord data
  pure (joinNl (recordLines r))

/-- The newline character. -/
def nlChar : Char := '\n'

/-- The single-quote character. -/
def quoteChar : Char := Char.ofNat 39

/-- True when the string contains no newline, so that it occupies exactly
one line of the rendered block. -/
def noNl (s : String) : Bool := !s.data.any (fun c => c = nlChar)

/-- A re-parseable record: every interpolated text is newline-free. -/
def wfEventR (e : PEventR) : Bool :=
  noNl e.year && noNl e.id && noNl e.link && noNl e.timezone && noNl e.date &&
  noNl e.place && e.timeline.all (fun t => noNl t.deadline && noNl t.comment)

/-- A re-parseable record: every interpolated text is newline-free. -/
def wfRecord (r : PRecord) : Bool :=
  noNl r.title && noNl r.description && noNl r.category && r.tags.all noNl &&
  r.events.all wfEventR

/-- Split a character list at newlines (inverse of joinNl on newline-free
lines). -/
def splitLines : List Char → List (List Char)
  | [] => [[]]
  | c :: rest =>
    if c = nlChar then [] :: splitLines rest
    else
      match splitLines rest with
      | l :: ls => (c :: l) :: ls
      | [] => [[c]]

/-- Strip a fixed leading text from a line, failing when the line does not
start with it. -/
def stripPre (pre l : String) : Option String :=
  if pre.data <+: l.data then some (String.mk (l.data.drop pre.data.length))
  else none

/-- Strip the closing quote of a quoted scalar. -/
def stripQuoteEnd (s : String) : Option String :=
  match s.data.reverse with
  | c :: rest => if c = quoteChar then some (String.mk rest.reverse) else none
  | [] => none

/-- Parse the tag lines of the tags section; stops at the first line that is
not a tag line. -/
def parseTagLines : List String → List String × List String
  | [] => ([], [])
  | l :: rest =>
    match stripPre "    - " l with
    | some t =>
      match parseTagLines rest with
      | (ts, rem) => (t :: ts, rem)
    | none => ([], l :: rest)

/-- Parse the quoted deadline/comment line pairs of a timeline section;
stops at the first line that is not a deadline line. -/
def parseTimelinePairs : List String → Option (List PTimelineE × List String)
  | [] => some ([], [])
  | l :: rest =>
    match stripPre "        - deadline: \x27" l with
    | none => some ([], l :: rest)
    | some dq =>
      match stripQuoteEnd dq with
      | none => none
      | some ds =>
        match rest with
        | [] => none
        | cl :: rest2 =>
          match stripPre "          comment: \x27" cl with
          | none => none
          | some cq =>
            match stripQuoteEnd cq with
            | none => none
            | some cs2 =>
              match parseTimelinePairs rest2 with
              | none => none
              | some (tls, rem) => some (⟨ds, cs2⟩ :: tls, rem)

/-- Parse the event blocks of the events section, fuelled by the line
count. -/
def parseEventBlocks : Nat → List String → Option (List PEventR)
  | _, [] => some []
  | 0, _ :: _ => none
  | fuel + 1, l1 :: ls =>
    match stripPre "    - year: " l1, ls with
    | some ys, l2 :: l3 :: l4 :: rest =>
      (match stripPre "      id: " l2, stripPre "      link: " l3 with
       | some ids3, some ls3 =>
         if l4 = "      timeline:" then
           match parseTimelinePairs rest with
           | none => none
           | some (tls, rem) =>
             match rem with
             | tzl :: dal :: pll :: rest2 =>
               (match stripPre "      timezone: " tzl, stripPre "      date: " dal,
                      stripPre "      place: " pll with
                | some tzs, some das, some pls =>
                  (match parseEventBlocks fuel rest2 with
                   | none => none
                   | some evs => some (⟨ys, ids3, ls3, tzs, das, pls, tls⟩ :: evs))
                | _, _, _ => none)
             | _ => none
         else none
       | _, _ => none)
    | _, _ => none

/-- Parse the line list of a rendered record, as described by the spec's
round-trip reading of the text block: fixed field prefixes in a fixed
order. -/
def parseRecordLines : List String → Option PRecord
  | l1 :: l2 :: l3 :: l4 :: rest =>
    (match stripPre "- title: " l1, stripPre "  description: " l2,
           stripPre "  category: " l3 with
     | some ts, some ds, some cs2 =>
       if l4 = "  tags:" then
         match parseTagLines rest with
         | (tags, rem) =>
           match rem with
           | hdr :: evLines =>
             if hdr = "  events:" then
               match parseEventBlocks evLines.length evLines with
               | none => none
               | some evs => some ⟨ts, ds, cs2, tags, evs⟩
             else none
           | [] => none
       else none
     | _, _, _ => none)
  | _ => none

/-- Re-parse a rendered text block: split into lines and parse them. -/
def parseBlock (y : String) : Option PRecord :=
  parseRecordLines ((splitLines y.data).map (fun l => String.mk l))

/-- Character-level form of joinNl. -/
def joinCh : List (List Char) → List Char
  | [] => []
  | [l] => l
  | l :: rest => l ++ nlChar :: joinCh rest

/-- A record that validate_extracted_data accepts with no errors but whose
event lacks the date and place keys, which to_yaml subscripts
unconditionally. -/
def c4ValidNoPlace : JValue :=
  .obj [("title", .str "T"), ("description", .str "D"),
        ("category", .str "conference"), ("tags", .arr [.str "ai"]),
        ("events", .arr [.obj [("id", .str "t-2025"), ("year", .int 2025),
          ("link", .str "https://x"),
          ("timeline", .arr [.obj [("deadline", .str "d"), ("comment", .str "c")]]),
          ("timezone", .str "UTC+8")]])]

/-- A fully populated record for the round-trip witness. -/
def c4Full : JValue :=
  .obj [("title", .str "T"), ("description", .str "D"),
        ("category", .str "conference"), ("tags", .arr [.str "ai", .str "ml"]),
        ("events", .arr [.obj [("year", .str "2025"), ("id", .str "t-25"),
          ("link", .str "https://x"),
          ("timeline", .arr [.obj [("deadline", .str "2025-01-01 23:59:59"),
                                   ("comment", .str "abstract")]]),
          ("timezone", .str "UTC+8"), ("date", .str "Jan 1"),
          ("place", .str "Wuhan")]])]

/-- The projection of c4Full. -/
def c4FullR : PRecord :=
  ⟨"T", "D", "conference", ["ai", "ml"],
   [⟨"2025", "t-25", "https://x", "UTC+8", "Jan 1", "Wuhan",
     [⟨"2025-01-01 23:59:59", "abstract"⟩]⟩]⟩

/-! Helper lemmas about the error strings and the validator. -/

lemma ne_of_lastChar {a b : String} (h : a.data.getLast? ≠ b.data.getLast?) : a ≠ b :=
  fun e => h (by rw [e])

lemma lastChar_append {a : String} {b : String} {c : Char} (h : b.data.getLast? = some c) :
    (a ++ b).data.getLast? = some c := by
  rw [String.data_append, List.getLast?_append, h]
  rfl

lemma titleErr_last : titleErr.data.getLast? = some 'e' := rfl

lemma categoryErr_last : categoryErr.data.getLast? = some ')' := rfl

lemma missingIdErr_last (i : Nat) : (missingIdErr i).data.getLast? = some 'd' :=
  lastChar_append rfl

lemma dupIdErr_last (i : Nat) (s : String) : (dupIdErr i s).data.getLast? = some '\x27' :=
  lastChar_append rfl

lemma yearErr_last (i : Nat) : (yearErr i).data.getLast? = some 'r' :=
  lastChar_append rfl

lemma linkErr_last (i : Nat) : (linkErr i).data.getLast? = some 'k' :=
  lastChar_append rfl

lemma timelineErr_last (i : Nat) : (timelineErr i).data.getLast? = some 'y' :=
  lastChar_append rfl

lemma timezoneErr_last (i : Nat) : (timezoneErr i).data.getLast? = some 'e' :=
  lastChar_append rfl

lemma missingIdErr_ne_dupIdErr (i j : Nat) (s : String) : missingIdErr i ≠ dupIdErr j s :=
  ne_of_lastChar (by rw [missingIdErr_last, dupIdErr_last]; decide)

lemma yearErr_ne_missingIdErr (i j : Nat) : yearErr i ≠ missingIdErr j :=
  ne_of_lastChar (by rw [yearErr_last, missingIdErr_last]; decide)

lemma yearErr_ne_dupIdErr (i j : Nat) (s : String) : yearErr i ≠ dupIdErr j s :=
  ne_of_lastChar (by rw [yearErr_last, dupIdErr_last]; decide)

lemma yearErr_ne_linkErr (i j : Nat) : yearErr i ≠ linkErr j :=
  ne_of_lastChar (by rw [yearErr_last, linkErr_last]; decide)

lemma yearErr_ne_timelineErr (i j : Nat) : yearErr i ≠ timelineErr j :=
  ne_of_lastChar (by rw [yearErr_last, timelineErr_last]; decide)

lemma yearErr_ne_timezoneErr (i j : Nat) : yearErr i ≠ timezoneErr j :=
  ne_of_lastChar (by rw [yearErr_last, timezoneErr_last]; decide)

lemma missingIdErr_ne_linkErr (i j : Nat) : missingIdErr i ≠ linkErr j :=
  ne_of_lastChar (by rw [missingIdErr_last, linkErr_last]; decide)

lemma missingIdErr_ne_timelineErr (i j : Nat) : missingIdErr i ≠ timelineErr j :=
  ne_of_lastChar (by rw [missingIdErr_last, timelineErr_last]; decide)

lemma missingIdErr_ne_timezoneErr (i j : Nat) : missingIdErr i ≠ timezoneErr j :=
  ne_of_lastChar (by rw [missingIdErr_last, timezoneErr_last]; decide)

lemma dupIdErr_ne_linkErr (i j : Nat) (s : String) : dupIdErr i s ≠ linkErr j :=
  ne_of_lastChar (by rw [dupIdErr_last, linkErr_last]; decide)

lemma dupIdErr_ne_timelineErr (i j : Nat) (s : String) : dupIdErr i s ≠ timelineErr j :=
  ne_of_lastChar (by rw [dupIdErr_last, timelineErr_last]; decide)

lemma dupIdErr_ne_timezoneErr (i j : Nat) (s : String) : dupIdErr i s ≠ timezoneErr j :=
  ne_of_lastChar (by rw [dupIdErr_last, timezoneErr_last]; decide)

lemma dupIdErr_ne_yearErr (i j : Nat) (s : String) : dupIdErr i s ≠ yearErr j :=
  ne_of_lastChar (by rw [dupIdErr_last, yearErr_last]; decide)

lemma titleErr_ne_missingIdErr (i : Nat) : titleErr ≠ missingIdErr i :=
  ne_of_lastChar (by rw [titleErr_last, missingIdErr_last]; decide)

lemma titleErr_ne_dupIdErr (i : Nat) (s : String) : titleErr ≠ dupIdErr i s :=
  ne_of_lastChar (by rw [titleErr_last, dupIdErr_last]; decide)

lemma categoryErr_ne_missingIdErr (i : Nat) : categoryErr ≠ missingIdErr i :=
  ne_of_lastChar (by rw [categoryErr_last, missingIdErr_last]; decide)

lemma categoryErr_ne_dupIdErr (i : Nat) (s : String) : categoryErr ≠ dupIdErr i s :=
  ne_of_lastChar (by rw [categoryErr_last, dupIdErr_last]; decide)

lemma mkValidation_mem {e : String} {errs : List String} (h : e ∈ errs) :
    (mkValidation errs).valid = false ∧ errorsOf (mkValidation errs) = errs := by
  cases errs with
  | nil => cases h
  | cons a l => simp [mkValidation, errorsOf]

lemma validate_obj_arr {fs : List (String × JValue)} {ids : List String}
    {evs : List JValue} {r : ValidationResult}
    (hE : getField fs "events" = .arr evs)
    (h : validate_extracted_data (.obj fs) ids = some r) :
    ∃ evErrs, checkEventsFrom ids 0 evs = some evErrs ∧
      r = mkValidation (topErrors fs ++ evErrs) := by
  replace h : validateObj fs ids = some r := h
  unfold validateObj at h
  rw [hE] at h
  obtain ⟨evErrs, h1, h2⟩ := Option.map_eq_some'.mp h
  exact ⟨evErrs, h1, h2.symm⟩

lemma validate_shape {data : JValue} {ids : List String} {r : ValidationResult}
    (h : validate_extracted_data data ids = some r) :
    ∃ errs, r = mkValidation errs := by
  cases data with
  | null => simp [validate_extracted_data] at h
  | bool b => simp [validate_extracted_data] at h
  | int n => simp [validate_extracted_data] at h
  | str s => simp [validate_extracted_data] at h
  | arr l => simp [validate_extracted_data] at h
  | obj fs =>
    replace h : validateObj fs ids = some r := h
    unfold validateObj at h
    cases hE : getField fs "events" <;> rw [hE] at h
    case arr evs =>
      obtain ⟨a, _, h2⟩ := Option.map_eq_some'.mp h
      exact ⟨_, h2.symm⟩
    all_goals exact ⟨_, (Option.some.inj h).symm⟩

lemma checkEventsFrom_mem (ids : List String) (evs : List JValue) :
    ∀ (n i : Nat) (evfs : List (String × JValue)) (errs : List String) (e : String),
      checkEventsFrom ids n evs = some errs → evs[i]? = some (.obj evfs) →
      e ∈ checkEvent ids (n + i) evfs → e ∈ errs := by
  induction evs with
  | nil => intro n i evfs errs e h hi hm; simp at hi
  | cons ev rest ih =>
    intro n i evfs errs e h hi hm
    cases ev with
    | obj fs0 =>
      simp only [checkEventsFrom] at h
      obtain ⟨es, h1, h2⟩ := Option.map_eq_some'.mp h
      subst h2
      cases i with
      | zero =>
        simp at hi
        subst hi
        exact List.mem_append_left _ (by simpa using hm)
      | succ j =>
        simp at hi
        refine List.mem_append_right _ (ih (n + 1) j evfs es e h1 hi ?_)
        have harith : n + 1 + j = n + (j + 1) := by omega
        rw [harith]
        exact hm
    | null => simp [checkEventsFrom] at h
    | bool b => simp [checkEventsFrom] at h
    | int m => simp [checkEventsFrom] at h
    | str s => simp [checkEventsFrom] at h
    | arr l => simp [checkEventsFrom] at h

lemma validate_mem_event {fs : List (String × JValue)} {ids : List String}
    {evs : List JValue} {i : Nat} {evfs : List (String × JValue)}
    {r : ValidationResult} {e : String}
    (hE : getField fs "events" = .arr evs)
    (hi : evs[i]? = some (.obj evfs))
    (hr : validate_extracted_data (.obj fs) ids = some r)
    (he : e ∈ checkEvent ids i evfs) :
    r.valid = false ∧ e ∈ errorsOf r := by
  obtain ⟨evErrs, h1, h2⟩ := validate_obj_arr hE hr
  have hmem : e ∈ evErrs := by
    refine checkEventsFrom_mem ids evs 0 i evfs evErrs e h1 hi ?_
    simpa using he
  have hall : e ∈ topErrors fs ++ evErrs := List.mem_append_right _ hmem
  obtain ⟨hv, herr⟩ := mkValidation_mem hall
  subst h2
  exact ⟨hv, by rw [herr]; exact hall⟩

lemma validate_mem_top {fs : List (String × JValue)} {ids : List String}
    {r : ValidationResult} {e : String}
    (hr : validate_extracted_data (.obj fs) ids = some r)
    (he : e ∈ topErrors fs) :
    r.valid = false ∧ e ∈ errorsOf r := by
  replace hr : validateObj fs ids = some r := hr
  unfold validateObj at hr
  cases hE : getField fs "events" <;> rw [hE] at hr
  case arr evs =>
    obtain ⟨evErrs, h1, h2⟩ := Option.map_eq_some'.mp hr
    have hall : e ∈ topErrors fs ++ evErrs := List.mem_append_left _ he
    obtain ⟨hv, herr⟩ := mkValidation_mem hall
    rw [← h2]
    exact ⟨hv, by rw [errorsOf] at herr ⊢; rw [herr]; exact hall⟩
  all_goals
    obtain ⟨hv, herr⟩ := mkValidation_mem he
    rw [← Option.some.inj hr]
    exact ⟨hv, by rw [herr]; exact he⟩

/-! Segment-level lemmas about checkEvent. -/

lemma mem_ite_singleton {e x : String} {c : Prop} [Decidable c]
    (h : e ∈ (if c then [x] else ([] : List String))) : e = x := by
  by_cases hc : c
  · simpa [hc] using h
  · simp [hc] at h

lemma idSegment_cases (ids : List String) (i : Nat) (ev : List (String × JValue)) :
    idSegment ids i ev = [missingIdErr i] ∨ (∃ s, idSegment ids i ev = [dupIdErr i s]) ∨
      idSegment ids i ev = [] := by
  unfold idSegment
  split
  · exact Or.inl rfl
  · split
    · split
      · exact Or.inr (Or.inl ⟨_, rfl⟩)
      · exact Or.inr (Or.inr rfl)
    · exact Or.inr (Or.inr rfl)

lemma mem_checkEvent_elim {ids : List String} {i : Nat} {ev : List (String × JValue)} {e : String}
    (h : e ∈ checkEvent ids i ev) :
    e ∈ idSegment ids i ev ∨ e = yearErr i ∨ e = linkErr i ∨ e = timelineErr i ∨
      e = timezoneErr i := by
  simp only [checkEvent, List.mem_append] at h
  rcases h with (((h | h) | h) | h) | h
  · exact Or.inl h
  · exact Or.inr (Or.inl (mem_ite_singleton h))
  · exact Or.inr (Or.inr (Or.inl (mem_ite_singleton h)))
  · exact Or.inr (Or.inr (Or.inr (Or.inl (mem_ite_singleton h))))
  · exact Or.inr (Or.inr (Or.inr (Or.inr (mem_ite_singleton h))))

lemma missing_mem_idSegment {ids : List String} {i : Nat} {ev : List (String × JValue)}
    (hcond : (truthy (getField ev "id") && isStrInst (getField ev "id")) = false) :
    missingIdErr i ∈ idSegment ids i ev := by
  unfold idSegment
  rw [hcond]
  simp

lemma dup_mem_idSegment {ids : List String} {i : Nat} {ev : List (String × JValue)} {s : String}
    (hid : getField ev "id" = .str s) (hne : s ≠ "") (hmem : s ∈ ids) :
    dupIdErr i s ∈ idSegment ids i ev := by
  have hcond : (truthy (getField ev "id") && isStrInst (getField ev "id")) = true := by
    rw [hid]
    simp [truthy, isStrInst, hne]
  unfold idSegment
  rw [hcond, hid]
  simp [hmem]

lemma checkEvent_of_idSegment {ids : List String} {i : Nat} {ev : List (String × JValue)}
    {e : String} (h : e ∈ idSegment ids i ev) : e ∈ checkEvent ids i ev := by
  simp only [checkEvent, List.mem_append]
  exact Or.inl (Or.inl (Or.inl (Or.inl h)))

lemma year_mem_checkEvent {ids : List String} {i : Nat} {ev : List (String × JValue)}
    (hcond : (truthy (getField ev "year") && isIntInst (getField ev "year")) = false) :
    yearErr i ∈ checkEvent ids i ev := by
  simp only [checkEvent, List.mem_append]
  refine Or.inl (Or.inl (Or.inl (Or.inr ?_)))
  rw [hcond]
  simp

lemma yearErr_not_mem {ids : List String} {i : Nat} {ev : List (String × JValue)}
    (hcond : (truthy (getField ev "year") && isIntInst (getField ev "year")) = true) :
    yearErr i ∉ checkEvent ids i ev := by
  intro h
  simp only [checkEvent, List.mem_append] at h
  rcases h with (((h | h) | h) | h) | h
  · rcases idSegment_cases ids i ev with hc | ⟨s, hc⟩ | hc <;> rw [hc] at h
    · exact yearErr_ne_missingIdErr i i (by simpa using h)
    · exact yearErr_ne_dupIdErr i i s (by simpa using h)
    · cases h
  · rw [hcond] at h
    simp at h
  · exact yearErr_ne_linkErr i i (mem_ite_singleton h)
  · exact yearErr_ne_timelineErr i i (mem_ite_singleton h)
  · exact yearErr_ne_timezoneErr i i (mem_ite_singleton h)

lemma title_mem_topErrors {fs : List (String × JValue)}
    (htitle : fs.lookup "title" = none) : titleErr ∈ topErrors fs := by
  have : getField fs "title" = .null := by simp [getField, htitle]
  simp [topErrors, List.mem_append, this, truthy]

lemma category_mem_topErrors {fs : List (String × JValue)}
    (hcat : categoryOk (getField fs "category") = false) : categoryErr ∈ topErrors fs := by
  simp [topErrors, List.mem_append, hcat]

lemma mkValidation_valid_iff (errs : List String) :
    (mkValidation errs).valid = true ↔ (mkValidation errs).errors = none := by
  cases errs <;> simp [mkValidation]

/-! Claim C1. -/

/-- C1 counterexample: the claim as stated is false when the known id is the
empty string.  The event id "" is a member of the known-id set [""], yet the
returned error list is exactly the missing-or-invalid-id error and contains
no duplicate-id error naming "", because the duplicate check sits behind a
Python-truthiness guard on the id value. -/
theorem C1_counterexample :
    getField (sampleEvent "") "id" = JValue.str "" ∧ ("" : String) ∈ [""] ∧
    validate_extracted_data (sampleData "") [""] =
      some ⟨false, some [missingIdErr 0], none⟩ ∧
    dupIdErr 0 "" ∉ [missingIdErr 0] := by
  refine ⟨rfl, by decide, rfl, ?_⟩
  intro h
  exact (missingIdErr_ne_dupIdErr 0 0 "").symm (by simpa using h)

/-- C1 (amended): if some event of the record carries an id that is a
non-empty string belonging to the known-id set, and validation returns a
verdict (no event is a non-dict), then the verdict has valid = false and its
error list contains the duplicate-id error naming that id, regardless of
every other field of the record and of that event. -/
theorem C1_duplicate_id_rejected
    (data : JValue) (ids : List String) (fs : List (String × JValue))
    (evs : List JValue) (i : Nat) (evfs : List (String × JValue)) (s : String)
    (r : ValidationResult)
    (hdata : data = .obj fs)
    (hE : getField fs "events" = .arr evs)
    (hi : evs[i]? = some (.obj evfs))
    (hid : getField evfs "id" = .str s)
    (hne : s ≠ "")
    (hmem : s ∈ ids)
    (hr : validate_extracted_data data ids = some r) :
    r.valid = false ∧ dupIdErr i s ∈ errorsOf r := by
  subst hdata
  exact validate_mem_event hE hi hr (checkEvent_of_idSegment (dup_mem_idSegment hid hne hmem))

/-- Witness for C1: the amended theorem applied to the concrete scenario of
the spec, an otherwise fully valid record whose event id x-2025 is known. -/
theorem C1_duplicate_id_rejected_witness :
    (⟨false, some [dupIdErr 0 "x-2025"], none⟩ : ValidationResult).valid = false ∧
    dupIdErr 0 "x-2025" ∈ errorsOf ⟨false, some [dupIdErr 0 "x-2025"], none⟩ :=
  C1_duplicate_id_rejected (sampleData "x-2025") ["x-2025"] _ _ 0 _ "x-2025" _
    rfl rfl rfl rfl (by decide) (by decide) rfl

/-! Claim C3. -/

/-- C3 counterexample: an event whose year field is present and is the
integer 0 still receives a year error (and fails validation), because the
code tests Python truthiness of the year value before its type. -/
theorem C3_counterexample :
    getField (sampleEventWith (.int 0) (.str "x-2025")) "year" = JValue.int 0 ∧
    isIntInst (JValue.int 0) = true ∧
    validate_extracted_data yearZeroData [] =
      some ⟨false, some [yearErr 0], none⟩ :=
  ⟨rfl, rfl, rfl⟩

/-- C3 (amended): the validator emits a year error for event index i exactly
when the year value fails the code's combined test, that is when the year
field is absent, not an integer (booleans count as integers), or a falsy
value (the integer 0 or False); and whenever that test fails, the error
reaches the final error list and the verdict is invalid. -/
theorem C3_year_error_iff
    (ids : List String) (i : Nat) (evfs : List (String × JValue)) :
    (yearErr i ∈ checkEvent ids i evfs ↔
      (truthy (getField evfs "year") && isIntInst (getField evfs "year")) = false) ∧
    (∀ (fs : List (String × JValue)) (evs : List JValue) (r : ValidationResult),
      getField fs "events" = .arr evs → evs[i]? = some (.obj evfs) →
      validate_extracted_data (.obj fs) ids = some r →
      (truthy (getField evfs "year") && isIntInst (getField evfs "year")) = false →
      yearErr i ∈ errorsOf r ∧ r.valid = false) := by
  constructor
  · constructor
    · intro hmem
      cases hy : (truthy (getField evfs "year") && isIntInst (getField evfs "year")) with
      | false => rfl
      | true => exact absurd hmem (yearErr_not_mem hy)
    · exact year_mem_checkEvent
  · intro fs evs r hE hi hr hcond
    have h := validate_mem_event hE hi hr (year_mem_checkEvent hcond)
    exact ⟨h.2, h.1⟩

/-- Witness for C3: the amended theorem applied to the record whose event has
year 0; the condition fails, the year error is in the final list, and the
verdict is invalid. -/
theorem C3_year_error_iff_witness :
    yearErr 0 ∈ errorsOf ⟨false, some [yearErr 0], none⟩ ∧
    (⟨false, some [yearErr 0], none⟩ : ValidationResult).valid = false :=
  (C3_year_error_iff [] 0 (sampleEventWith (.int 0) (.str "x-2025"))).2
    [("title", .str "Open Source Summer"), ("description", .str "desc"),
     ("category", .str "competition"), ("tags", .arr [.str "a"]),
     ("events", .arr [.obj (sampleEventWith (.int 0) (.str "x-2025"))])]
    [.obj (sampleEventWith (.int 0) (.str "x-2025"))]
    ⟨false, some [yearErr 0], none⟩ rfl rfl rfl rfl

/-! Claim C10. -/

/-- C10: for any event the missing-or-invalid-id error and the duplicate-id
error are mutually exclusive (the duplicate check is an elif, performed only
when the id is present and a string), and whenever validation returns a
verdict, valid = true exactly when the errors field is the None value. -/
theorem C10_id_error_exclusive_valid_iff :
    (∀ (data : JValue) (ids : List String) (r : ValidationResult),
        validate_extracted_data data ids = some r → (r.valid = true ↔ r.errors = none)) ∧
    (∀ (ids : List String) (i : Nat) (evfs : List (String × JValue)) (s : String),
        ¬(missingIdErr i ∈ checkEvent ids i evfs ∧ dupIdErr i s ∈ checkEvent ids i evfs)) := by
  constructor
  · intro data ids r hr
    obtain ⟨errs, rfl⟩ := validate_shape hr
    exact mkValidation_valid_iff errs
  · rintro ids i evfs s ⟨h1, h2⟩
    have hm : missingIdErr i ∈ idSegment ids i evfs := by
      simp only [checkEvent, List.mem_append] at h1
      rcases h1 with (((h | h) | h) | h) | h
      · exact h
      · exact absurd (mem_ite_singleton h) (yearErr_ne_missingIdErr i i).symm
      · exact absurd (mem_ite_singleton h) (missingIdErr_ne_linkErr i i)
      · exact absurd (mem_ite_singleton h) (missingIdErr_ne_timelineErr i i)
      · exact absurd (mem_ite_singleton h) (missingIdErr_ne_timezoneErr i i)
    have hd : dupIdErr i s ∈ idSegment ids i evfs := by
      simp only [checkEvent, List.mem_append] at h2
      rcases h2 with (((h | h) | h) | h) | h
      · exact h
      · exact absurd (mem_ite_singleton h) (dupIdErr_ne_yearErr i i s)
      · exact absurd (mem_ite_singleton h) (dupIdErr_ne_linkErr i i s)
      · exact absurd (mem_ite_singleton h) (dupIdErr_ne_timelineErr i i s)
      · exact absurd (mem_ite_singleton h) (dupIdErr_ne_timezoneErr i i s)
    rcases idSegment_cases ids i evfs with hc | ⟨t, hc⟩ | hc <;> rw [hc] at hm hd
    · have hd2 : dupIdErr i s = missingIdErr i := by simpa using hd
      exact missingIdErr_ne_dupIdErr i i s hd2.symm
    · have hm2 : missingIdErr i = dupIdErr i t := by simpa using hm
      exact missingIdErr_ne_dupIdErr i i t hm2
    · cases hm

/-- Witness for C10: the first part applied to the concrete valid record, and
the second part at a concrete event. -/
theorem C10_id_error_exclusive_valid_iff_witness :
    ((⟨true, none, none⟩ : ValidationResult).valid = true ↔
      (⟨true, none, none⟩ : ValidationResult).errors = none) ∧
    ¬(missingIdErr 0 ∈ checkEvent [] 0 (sampleEvent "x-2025") ∧
      dupIdErr 0 "x-2025" ∈ checkEvent [] 0 (sampleEvent "x-2025")) :=
  ⟨C10_id_error_exclusive_valid_iff.1 (sampleData "x-2025") [] ⟨true, none, none⟩ rfl,
   C10_id_error_exclusive_valid_iff.2 [] 0 (sampleEvent "x-2025") "x-2025"⟩

/-! Claim C2. -/

/-- C2: validation is non-short-circuiting.  For a record with no title, an
invalid (here absent) category, and an event whose id is a string belonging
to the known-id set, the final error list simultaneously contains the title
error, the category error, and the id error of that event (the duplicate-id
error, or the missing-id error in the degenerate case of an empty id), and
these three error strings are pairwise distinct. -/
theorem C2_errors_accumulate
    (data : JValue) (ids : List String) (fs : List (String × JValue))
    (evs : List JValue) (i : Nat) (evfs : List (String × JValue)) (s : String)
    (r : ValidationResult)
    (hdata : data = .obj fs)
    (htitle : fs.lookup "title" = none)
    (hcat : categoryOk (getField fs "category") = false)
    (hE : getField fs "events" = .arr evs)
    (hi : evs[i]? = some (.obj evfs))
    (hid : getField evfs "id" = .str s)
    (hmem : s ∈ ids)
    (hr : validate_extracted_data data ids = some r) :
    r.valid = false ∧ titleErr ∈ errorsOf r ∧ categoryErr ∈ errorsOf r ∧
      (if s = "" then missingIdErr i else dupIdErr i s) ∈ errorsOf r ∧
      titleErr ≠ categoryErr ∧
      titleErr ≠ (if s = "" then missingIdErr i else dupIdErr i s) ∧
      categoryErr ≠ (if s = "" then missingIdErr i else dupIdErr i s) := by
  subst hdata
  have h1 := validate_mem_top hr (title_mem_topErrors htitle)
  have h2 := validate_mem_top hr (category_mem_topErrors hcat)
  by_cases hs : s = ""
  · rw [if_pos hs]
    have hcond : (truthy (getField evfs "id") && isStrInst (getField evfs "id")) = false := by
      rw [hid, hs]; rfl
    have h3 := validate_mem_event hE hi hr (checkEvent_of_idSegment (missing_mem_idSegment hcond))
    exact ⟨h1.1, h1.2, h2.2, h3.2, by decide, titleErr_ne_missingIdErr i,
      categoryErr_ne_missingIdErr i⟩
  · rw [if_neg hs]
    have h3 := validate_mem_event hE hi hr (checkEvent_of_idSegment (dup_mem_idSegment hid hs hmem))
    exact ⟨h1.1, h1.2, h2.2, h3.2, by decide, titleErr_ne_dupIdErr i s,
      categoryErr_ne_dupIdErr i s⟩

/-- Witness for C2: the record with no title and no category whose event id
x-2025 is known produces the three distinct errors at once. -/
theorem C2_errors_accumulate_witness :
    (⟨false, some [titleErr, categoryErr, dupIdErr 0 "x-2025"], none⟩ : ValidationResult).valid
        = false ∧
    titleErr ∈ errorsOf ⟨false, some [titleErr, categoryErr, dupIdErr 0 "x-2025"], none⟩ ∧
    categoryErr ∈ errorsOf ⟨false, some [titleErr, categoryErr, dupIdErr 0 "x-2025"], none⟩ ∧
    (if ("x-2025" : String) = "" then missingIdErr 0 else dupIdErr 0 "x-2025") ∈
      errorsOf ⟨false, some [titleErr, categoryErr, dupIdErr 0 "x-2025"], none⟩ ∧
    titleErr ≠ categoryErr ∧
    titleErr ≠ (if ("x-2025" : String) = "" then missingIdErr 0 else dupIdErr 0 "x-2025") ∧
    categoryErr ≠ (if ("x-2025" : String) = "" then missingIdErr 0 else dupIdErr 0 "x-2025") :=
  C2_errors_accumulate (noTitleData "x-2025") ["x-2025"]
    [("description", .str "d"), ("tags", .arr [.str "t"]),
     ("events", .arr [.obj (sampleEvent "x-2025")])]
    [.obj (sampleEvent "x-2025")] 0 (sampleEvent "x-2025") "x-2025"
    ⟨false, some [titleErr, categoryErr, dupIdErr 0 "x-2025"], none⟩
    rfl rfl rfl rfl rfl rfl (by decide) rfl

/-! Claim C9. -/

/-- C9: the prompts truncate silently.  The user prompt depends only on the
first 8000 characters of the content (and never errors on longer content),
the tag hint depends only on the first 20 known tags, the id hint is the
joined first 10 known ids with the and-more marker appended exactly when
more than 10 ids exist, and the truncated lists are within the bounds. -/
theorem C9_prompt_truncation (content source_url : String) (tags ids : List String) :
    user_prompt content source_url = user_prompt (pyTake 8000 content) source_url ∧
    (pyTake 8000 content).length ≤ 8000 ∧
    tagHint tags = tagHint (tags.take 20) ∧
    (tags.take 20).length ≤ 20 ∧
    idHint ids = idHint (ids.take 10) ++ (if ids.length > 10 then "等" else "") ∧
    (ids.take 10).length ≤ 10 := by
  have hidem : pyTake 8000 (pyTake 8000 content) = pyTake 8000 content := by
    simp [pyTake, List.take_take]
  refine ⟨?_, ?_, ?_, ?_, ?_, ?_⟩
  · unfold user_prompt
    rw [hidem]
  · simp [pyTake]
  · have h20 : (tags.take 20).isEmpty = tags.isEmpty := by cases tags <;> simp
    have h1 : (tags.take 20).take 20 = tags.take 20 := by simp [List.take_take]
    by_cases h : tags.isEmpty
    · simp [tagHint, h, h20]
    · simp only [tagHint, h20, h, if_neg, Bool.false_eq_true, h1]
  · exact List.length_take_le 20 tags
  · by_cases h : ids.isEmpty
    · have : ids = [] := List.isEmpty_iff.mp h
      subst this
      simp [idHint]
    · have h10 : (ids.take 10).isEmpty = false := by
        cases ids with
        | nil => simp at h
        | cons a l => simp
      have hlen : ¬((ids.take 10).length > 10) := by
        have := List.length_take_le 10 ids
        omega
      have h1 : (ids.take 10).take 10 = ids.take 10 := by simp [List.take_take]
      simp [idHint, h, h10, hlen, h1]
  · exact List.length_take_le 10 ids

/-! Claim C7. -/

/-- C7: whenever the validator returns an invalid verdict for the parsed
model output, the extraction outcome has success = false and its error
string is exactly the semicolon-joined concatenation of the whole error
list of the validator, and the warnings slot is passed through. -/
theorem C7_error_joins_all_messages
    (extracted_data : JValue) (existing_ids : List String) (v : ValidationResult)
    (hv : validate_extracted_data extracted_data existing_ids = some v)
    (hinvalid : v.valid = false) :
    extract_activity_result extracted_data existing_ids =
      some { success := false
             error := some (String.intercalate "; " (errorsOf v))
             data := none
             warnings := v.warnings } := by
  unfold extract_activity_result
  rw [hv]
  simp [hinvalid, errorsOf]

/-- Witness for C7: the record missing title and category produces the
outcome whose error joins both messages with a semicolon. -/
theorem C7_error_joins_all_messages_witness :
    extract_activity_result (noTitleData "x") [] =
      some { success := false
             error := some (String.intercalate "; "
               (errorsOf ⟨false, some [titleErr, categoryErr], none⟩))
             data := none
             warnings := (⟨false, some [titleErr, categoryErr], none⟩ : ValidationResult).warnings } :=
  C7_error_joins_all_messages (noTitleData "x") [] ⟨false, some [titleErr, categoryErr], none⟩
    rfl rfl

/-! Claim C8. -/

/-- C8 counterexample: with the github provider selected, its credential
absent, and a reachable page, the URL pipeline attempts the web fetch and
only then surfaces the missing-credential outcome: the network-call trace
is the non-empty [fetch], contradicting the claim that no network call is
attempted before the configuration error is surfaced. -/
theorem C8_counterexample :
    extract_from_url_run ⟨"github", false, some "<p>x</p>", some (some "j"), none⟩
        "https://e.org" [] [] =
      ([NetCall.fetch], some (configErrorOutcome "github")) ∧
    ([NetCall.fetch] : List NetCall) ≠ [] :=
  ⟨rfl, by decide⟩

/-- C8 (amended): when the credential of the selected provider is absent, the
completion call is never attempted; the missing-credential outcome is
surfaced right after the web fetch in URL runs (the fetch does run first,
at ai_agent.py line 55, before the credential check at line 132), and before
any network call in file runs. -/
theorem C8_credential_before_completion
    (env : AgentEnv) (url file_content file_name : String)
    (tags ids : List String)
    (hkey : env.hasKey = false) :
    NetCall.completion ∉ (extract_from_url_run env url tags ids).1 ∧
    (∀ html, env.fetchResult = some html →
      extract_from_url_run env url tags ids =
        ([NetCall.fetch], some (configErrorOutcome env.provider))) ∧
    extract_from_file_run env file_content file_name tags ids =
      ([], some (configErrorOutcome env.provider)) := by
  have hinfo : ∀ c su, extract_activity_info_run env c su tags ids =
      ([], some (configErrorOutcome env.provider)) := by
    intro c su
    simp [extract_activity_info_run, hkey]
  refine ⟨?_, ?_, ?_⟩
  · rcases hf : env.fetchResult with _ | html
    · simp [extract_from_url_run, hf]
    · simp [extract_from_url_run, hf, hinfo]
  · intro html hf
    simp [extract_from_url_run, hf, hinfo]
  · simp [extract_from_file_run, hinfo]

/-- Witness for C8: the amended theorem at a concrete credential-less run. -/
theorem C8_credential_before_completion_witness :
    NetCall.completion ∉
      (extract_from_url_run ⟨"dashscope", false, some "<p>x</p>", some (some "j"), none⟩
        "https://e.org" [] []).1 ∧
    extract_from_url_run ⟨"dashscope", false, some "<p>x</p>", some (some "j"), none⟩
        "https://e.org" [] [] =
      ([NetCall.fetch], some (configErrorOutcome "dashscope")) ∧
    extract_from_file_run ⟨"dashscope", false, some "<p>x</p>", some (some "j"), none⟩
        "c" "f.txt" [] [] =
      ([], some (configErrorOutcome "dashscope")) :=
  ⟨(C8_credential_before_completion _ "https://e.org" "c" "f.txt" [] [] rfl).1,
   (C8_credential_before_completion
      (⟨"dashscope", false, some "<p>x</p>", some (some "j"), none⟩ : AgentEnv)
      "https://e.org" "c" "f.txt" [] [] rfl).2.1 "<p>x</p>" rfl,
   (C8_credential_before_completion
      (⟨"dashscope", false, some "<p>x</p>", some (some "j"), none⟩ : AgentEnv)
      "https://e.org" "c" "f.txt" [] [] rfl).2.2⟩

/-! Whitespace-normalization lemmas for C5. -/

lemma head?_dropWhile_false (p : Char → Bool) :
    ∀ (l : List Char) {c : Char}, (l.dropWhile p).head? = some c → p c = false := by
  intro l
  induction l with
  | nil => intro c h; simp at h
  | cons a rest ih =>
    intro c h
    by_cases hp : p a
    · rw [List.dropWhile_cons_of_pos hp] at h
      exact ih h
    · rw [List.dropWhile_cons_of_neg hp] at h
      simp at h
      subst h
      simpa using hp

lemma collapseWs_head? (l : List Char) :
    (collapseWs l).head? = l.head?.map (fun c => if isSpaceChar c then ' ' else c) := by
  cases l with
  | nil => simp [collapseWs]
  | cons c rest =>
    rw [collapseWs]
    by_cases h : isSpaceChar c <;> simp [h]

lemma collapseWs_space_eq :
    ∀ (l : List Char), ∀ c ∈ collapseWs l, isSpaceChar c = true → c = ' ' := by
  intro l
  induction l using collapseWs.induct with
  | case1 => simp [collapseWs]
  | case2 c rest h ih =>
    rw [collapseWs, if_pos h]
    intro d hd hds
    rcases List.mem_cons.mp hd with h1 | h1
    · exact h1
    · exact ih d h1 hds
  | case3 c rest h ih =>
    rw [collapseWs, if_neg h]
    intro d hd hds
    rcases List.mem_cons.mp hd with h1 | h1
    · subst h1; exact absurd hds h
    · exact ih d h1 hds

lemma collapseWs_chain (l : List Char) : List.Chain' noDoubleWs (collapseWs l) := by
  induction l using collapseWs.induct with
  | case1 => simp [collapseWs]
  | case2 c rest h ih =>
    rw [collapseWs, if_pos h]
    rw [List.chain'_cons']
    refine ⟨?_, ih⟩
    intro b hb
    have hh := collapseWs_head? (rest.dropWhile isSpaceChar)
    rw [hb] at hh
    rcases Option.map_eq_some'.mp hh.symm with ⟨d, hd, hbd⟩
    have hdf : isSpaceChar d = false := head?_dropWhile_false _ _ hd
    rw [if_neg (by simp [hdf])] at hbd
    subst hbd
    intro hcon
    rw [hdf] at hcon
    exact absurd hcon.2 (by simp)
  | case3 c rest h ih =>
    rw [collapseWs, if_neg h]
    rw [List.chain'_cons']
    refine ⟨?_, ih⟩
    intro b hb
    intro hcon
    exact h hcon.1

lemma pyStripRight_isPre (l : List Char) : pyStripRight l <+: l := by
  unfold pyStripRight
  have h := List.dropWhile_suffix (l := l.reverse) isSpaceChar
  have h2 := List.reverse_prefix.mpr h
  rwa [List.reverse_reverse] at h2

lemma normSpace_within (l : List Char) : normSpace l <:+: collapseWs l := by
  unfold normSpace
  exact (pyStripRight_isPre _).isInfix.trans
    ((List.dropWhile_suffix (l := collapseWs l) isSpaceChar).isInfix)

lemma normSpace_space_eq (l : List Char) :
    ∀ c ∈ normSpace l, isSpaceChar c = true → c = ' ' := by
  intro c hc
  exact collapseWs_space_eq l c ((normSpace_within l).sublist.subset hc)

lemma normSpace_chain (l : List Char) : List.Chain' noDoubleWs (normSpace l) :=
  List.Chain'.infix (collapseWs_chain l) (normSpace_within l)

lemma normSpace_head (l : List Char) :
    ∀ c, (normSpace l).head? = some c → isSpaceChar c = false := by
  intro c h
  obtain ⟨t, ht⟩ := pyStripRight_isPre (pyStripLeft (collapseWs l))
  have h0 : (pyStripRight (pyStripLeft (collapseWs l))).head? = some c := h
  have h2 : (pyStripLeft (collapseWs l)).head? = some c := by
    rw [← ht, List.head?_append, h0]
    rfl
  exact head?_dropWhile_false _ _ h2

lemma normSpace_last (l : List Char) :
    ∀ c, (normSpace l).getLast? = some c → isSpaceChar c = false := by
  intro c h
  rw [← List.head?_reverse] at h
  unfold normSpace pyStripRight at h
  rw [List.reverse_reverse] at h
  exact head?_dropWhile_false _ _ h



/-! Block- and tag-stripping lemmas for C5.  In the statements below, the
close tag `</tag>` followed by `post` is always written in the right-nested
form `'<' :: ('/' :: (tag ++ ('>' :: post)))`. -/

lemma drop_append_len (A X : List Char) (m : Nat) : (A ++ X).drop (A.length + m) = X.drop m := by
  induction A with
  | nil => simp
  | cons a A ih =>
    rw [List.cons_append, List.length_cons]
    rw [show A.length + 1 + m = (A.length + m) + 1 by omega]
    rw [List.drop_succ_cons]
    exact ih

lemma stripBlocks_cons_neg {tag : List Char} {c : Char} {rest : List Char}
    (h : ¬(c = '<' ∧ matchCI tag rest = true ∧ boundaryOk (rest.drop tag.length) = true)) :
    stripBlocks tag (c :: rest) = c :: stripBlocks tag rest := by
  rw [stripBlocks, if_neg h]

lemma stripBlocks_cons_pos {tag : List Char} {c : Char} {rest : List Char} {n : Nat}
    (hcond : c = '<' ∧ matchCI tag rest = true ∧ boundaryOk (rest.drop tag.length) = true)
    (hfc : findCloseLen tag (rest.drop tag.length) = some n) :
    stripBlocks tag (c :: rest) = stripBlocks tag ((rest.drop tag.length).drop n) := by
  rw [stripBlocks, if_pos hcond, hfc]

lemma stripBlocks_pass {tag : List Char} :
    ∀ (pre rest : List Char), pre.all (fun c => c != '<') = true →
      stripBlocks tag (pre ++ rest) = pre ++ stripBlocks tag rest := by
  intro pre
  induction pre with
  | nil => intro rest h; simp
  | cons a pre ih =>
    intro rest h
    simp only [List.all_cons, Bool.and_eq_true, bne_iff_ne] at h
    rw [List.cons_append, stripBlocks_cons_neg (fun hc => h.1 hc.1)]
    rw [ih rest (by simpa using h.2), List.cons_append]

lemma matchCI_self {tag : List Char} (h : ∀ c ∈ tag, c.toLower = c) (x : List Char) :
    matchCI tag (tag ++ x) = true := by
  induction tag with
  | nil => simp [matchCI]
  | cons a tag ih =>
    rw [List.cons_append, matchCI]
    have ha : a.toLower = a := h a (by simp)
    have ih2 := ih (fun c hc => h c (by simp [hc]))
    simp [ha, ih2]

lemma findCloseLen_cons (tag : List Char) (c : Char) (rest : List Char) :
    findCloseLen tag (c :: rest) =
      if closeAt tag (c :: rest) then some (tag.length + 3)
      else (findCloseLen tag rest).map (· + 1) := rfl

lemma closeAt_ne {tag : List Char} {a : Char} {l : List Char} (ha : a ≠ '<') :
    closeAt tag (a :: l) = false := by
  cases l <;> simp [closeAt, ha]

lemma closeAt_found {tag post : List Char} (htag : ∀ c ∈ tag, c.toLower = c) :
    closeAt tag ('<' :: ('/' :: (tag ++ ('>' :: post)))) = true := by
  simp [closeAt, matchCI_self htag, List.drop_left]

lemma findCloseLen_lead {tag post : List Char} (htag : ∀ c ∈ tag, c.toLower = c) :
    ∀ (lead : List Char), lead.all (fun c => c != '<') = true →
      findCloseLen tag (lead ++ ('<' :: ('/' :: (tag ++ ('>' :: post))))) =
        some (lead.length + (tag.length + 3)) := by
  intro lead
  induction lead with
  | nil =>
    intro _
    rw [List.nil_append, findCloseLen_cons, if_pos (closeAt_found htag)]
    simp
  | cons a lead ih =>
    intro h
    simp only [List.all_cons, Bool.and_eq_true, bne_iff_ne] at h
    rw [List.cons_append, findCloseLen_cons]
    rw [if_neg (by simp [closeAt_ne h.1])]
    rw [ih (by simpa using h.2)]
    show some (lead.length + (tag.length + 3) + 1) = some ((a :: lead).length + (tag.length + 3))
    rw [List.length_cons]
    congr 1
    omega

lemma drop_close {tag post : List Char} :
    ('<' :: ('/' :: (tag ++ ('>' :: post)))).drop (tag.length + 3) = post := by
  rw [show tag.length + 3 = (tag.length + 1) + 1 + 1 by omega]
  rw [List.drop_succ_cons, List.drop_succ_cons]
  rw [← List.drop_drop]
  rw [List.drop_left]
  rw [show (1 : Nat) = 0 + 1 by omega, List.drop_succ_cons, List.drop_zero]

lemma stripBlocks_block {tag inner post : List Char}
    (htag : ∀ c ∈ tag, c.toLower = c)
    (hinner : inner.all (fun c => c != '<') = true) :
    stripBlocks tag
        ('<' :: (tag ++ ('>' :: (inner ++ ('<' :: ('/' :: (tag ++ ('>' :: post)))))))) =
      stripBlocks tag post := by
  have h1 : ('>' :: inner).all (fun c => c != '<') = true := by simpa using hinner
  have hfc : findCloseLen tag
      ((tag ++ ('>' :: (inner ++ ('<' :: ('/' :: (tag ++ ('>' :: post))))))).drop tag.length) =
      some (('>' :: inner).length + (tag.length + 3)) := by
    rw [List.drop_left]
    rw [show ('>' :: (inner ++ ('<' :: ('/' :: (tag ++ ('>' :: post)))))) =
      ('>' :: inner) ++ ('<' :: ('/' :: (tag ++ ('>' :: post)))) from rfl]
    exact findCloseLen_lead htag ('>' :: inner) h1
  rw [stripBlocks_cons_pos ⟨rfl, matchCI_self htag _, by rw [List.drop_left]; rfl⟩ hfc]
  congr 1
  rw [List.drop_left]
  rw [show ('>' :: (inner ++ ('<' :: ('/' :: (tag ++ ('>' :: post)))))) =
    ('>' :: inner) ++ ('<' :: ('/' :: (tag ++ ('>' :: post)))) from rfl]
  rw [drop_append_len]
  exact drop_close

lemma stripBlocks_other_block {inner post : List Char}
    (hinner : inner.all (fun c => c != '<') = true) :
    stripBlocks scriptTag
        ('<' :: (styleTag ++ ('>' :: (inner ++ ('<' :: ('/' :: (styleTag ++ ('>' :: post)))))))) =
      '<' :: (styleTag ++ ('>' :: (inner ++
        ('<' :: ('/' :: (styleTag ++ ('>' :: stripBlocks scriptTag post))))))) := by
  have hm1 : matchCI scriptTag
      (styleTag ++ ('>' :: (inner ++ ('<' :: ('/' :: (styleTag ++ ('>' :: post))))))) = false := rfl
  rw [stripBlocks_cons_neg (by rintro ⟨-, h2, -⟩; rw [hm1] at h2; cases h2)]
  rw [show (styleTag ++ ('>' :: (inner ++ ('<' :: ('/' :: (styleTag ++ ('>' :: post))))))) =
    (styleTag ++ ('>' :: inner)) ++ ('<' :: ('/' :: (styleTag ++ ('>' :: post)))) by
      simp [List.append_assoc]]
  have hpre1 : (styleTag ++ ('>' :: inner)).all (fun c => c != '<') = true := by
    rw [List.all_append]
    simp [styleTag, hinner]
  rw [stripBlocks_pass _ _ hpre1]
  have hm2 : matchCI scriptTag ('/' :: (styleTag ++ ('>' :: post))) = false := rfl
  rw [stripBlocks_cons_neg (by rintro ⟨-, h2, -⟩; rw [hm2] at h2; cases h2)]
  rw [show ('/' :: (styleTag ++ ('>' :: post))) = ('/' :: (styleTag ++ ['>'])) ++ post by
    simp [List.append_assoc]]
  rw [stripBlocks_pass _ _ (by simp [styleTag])]
  simp [List.append_assoc]

lemma stripTags_cons_ne {c : Char} {rest : List Char} (h : c ≠ '<') :
    stripTags (c :: rest) = c :: stripTags rest := by
  rw [stripTags, if_neg h]

lemma stripTags_pass :
    ∀ (pre rest : List Char), pre.all (fun c => c != '<') = true →
      stripTags (pre ++ rest) = pre ++ stripTags rest := by
  intro pre
  induction pre with
  | nil => intro rest h; simp
  | cons a pre ih =>
    intro rest h
    simp only [List.all_cons, Bool.and_eq_true, bne_iff_ne] at h
    rw [List.cons_append, stripTags_cons_ne h.1]
    rw [ih rest (by simpa using h.2), List.cons_append]

lemma findGtLen_cons (c : Char) (rest : List Char) :
    findGtLen (c :: rest) =
      if c = '>' then some 0 else (findGtLen rest).map (· + 1) := rfl

lemma findGtLen_found {post : List Char} :
    ∀ (inner : List Char), inner.all (fun c => c != '>') = true →
      findGtLen (inner ++ '>' :: post) = some inner.length := by
  intro inner
  induction inner with
  | nil => intro _; rw [List.nil_append, findGtLen_cons, if_pos rfl]; rfl
  | cons a inner ih =>
    intro h
    simp only [List.all_cons, Bool.and_eq_true, bne_iff_ne] at h
    rw [List.cons_append, findGtLen_cons, if_neg h.1, ih (by simpa using h.2)]
    rfl

lemma stripTags_cons_found {rest : List Char} {n : Nat}
    (hfg : findGtLen rest = some n) (hn : n ≠ 0) :
    stripTags ('<' :: rest) = ' ' :: stripTags (rest.drop (n + 1)) := by
  rw [stripTags, if_pos rfl, hfg]
  show (if n = 0 then '<' :: stripTags rest else ' ' :: stripTags (rest.drop (n + 1))) =
    ' ' :: stripTags (rest.drop (n + 1))
  rw [if_neg hn]

lemma stripTags_tag {pre inner post : List Char}
    (hpre : pre.all (fun c => c != '<') = true)
    (hne : inner ≠ [])
    (hinner : inner.all (fun c => c != '>') = true) :
    stripTags (pre ++ '<' :: (inner ++ '>' :: post)) = pre ++ ' ' :: stripTags post := by
  rw [stripTags_pass pre _ hpre]
  congr 1
  rw [stripTags_cons_found (findGtLen_found inner hinner) (by simp [hne])]
  congr 2
  rw [show inner.length + 1 = inner.length + 1 from rfl, drop_append_len inner ('>' :: post) 1]
  rfl

lemma scriptTag_lower : ∀ c ∈ scriptTag, c.toLower = c := by decide

lemma styleTag_lower : ∀ c ∈ styleTag, c.toLower = c := by decide

lemma clean_script_removed {pre inner post : List Char}
    (hpre : pre.all (fun c => c != '<') = true)
    (hinner : inner.all (fun c => c != '<') = true) :
    fetch_web_content_clean
        ⟨pre ++ ('<' :: (scriptTag ++ ('>' :: (inner ++
          ('<' :: ('/' :: (scriptTag ++ ('>' :: post))))))))⟩ =
      fetch_web_content_clean ⟨pre ++ post⟩ := by
  unfold fetch_web_content_clean
  congr 2
  show stripTags (stripBlocks styleTag (stripBlocks scriptTag _)) =
    stripTags (stripBlocks styleTag (stripBlocks scriptTag _))
  rw [stripBlocks_pass pre _ hpre, stripBlocks_block scriptTag_lower hinner,
    stripBlocks_pass pre _ hpre]
  rw [show ({ data := pre ++ post } : String).data = pre ++ post from rfl]
  rw [stripBlocks_pass pre _ hpre, stripBlocks_pass pre _ hpre]

lemma clean_style_removed {pre inner post : List Char}
    (hpre : pre.all (fun c => c != '<') = true)
    (hinner : inner.all (fun c => c != '<') = true) :
    fetch_web_content_clean
        ⟨pre ++ ('<' :: (styleTag ++ ('>' :: (inner ++
          ('<' :: ('/' :: (styleTag ++ ('>' :: post))))))))⟩ =
      fetch_web_content_clean ⟨pre ++ post⟩ := by
  unfold fetch_web_content_clean
  congr 2
  show stripTags (stripBlocks styleTag (stripBlocks scriptTag _)) =
    stripTags (stripBlocks styleTag (stripBlocks scriptTag _))
  rw [stripBlocks_pass pre _ hpre, stripBlocks_other_block hinner,
    stripBlocks_pass pre _ hpre, stripBlocks_block styleTag_lower hinner]
  rw [show ({ data := pre ++ post } : String).data = pre ++ post from rfl]
  rw [stripBlocks_pass pre _ hpre, stripBlocks_pass pre _ hpre]

/-! Claim C5. -/

/-- C5: the HTML normalization of fetch_web_content removes a script block
and a style block together with their inner text (case-insensitive tags are
covered since the tag letters are matched case-insensitively), replaces every
remaining tag span by one space, and for every input the output consists of
single-space-separated tokens with no leading or trailing whitespace: every
whitespace character of the output is the single space character, no two
adjacent characters are both whitespace, and the first and last characters
are not whitespace.  The removal equations carry the no-stray-angle-bracket
side conditions under which the block regexes match. -/
theorem C5_normalization
    (pre inner post tpre tinner tpost : List Char) (s : String)
    (hpre : pre.all (fun c => c != '<') = true)
    (hinner : inner.all (fun c => c != '<') = true)
    (htpre : tpre.all (fun c => c != '<') = true)
    (htne : tinner ≠ [])
    (htinner : tinner.all (fun c => c != '>') = true) :
    (fetch_web_content_clean
        ⟨pre ++ ('<' :: (scriptTag ++ ('>' :: (inner ++
          ('<' :: ('/' :: (scriptTag ++ ('>' :: post))))))))⟩ =
      fetch_web_content_clean ⟨pre ++ post⟩) ∧
    (fetch_web_content_clean
        ⟨pre ++ ('<' :: (styleTag ++ ('>' :: (inner ++
          ('<' :: ('/' :: (styleTag ++ ('>' :: post))))))))⟩ =
      fetch_web_content_clean ⟨pre ++ post⟩) ∧
    (stripTags (tpre ++ '<' :: (tinner ++ '>' :: tpost)) = tpre ++ ' ' :: stripTags tpost) ∧
    (∀ c ∈ (fetch_web_content_clean s).data, isSpaceChar c = true → c = ' ') ∧
    List.Chain' noDoubleWs (fetch_web_content_clean s).data ∧
    (∀ c, (fetch_web_content_clean s).data.head? = some c → isSpaceChar c = false) ∧
    (∀ c, (fetch_web_content_clean s).data.getLast? = some c → isSpaceChar c = false) ∧
    fetch_web_content_clean "a<SCRIPT x=1>evil()</ScRiPt>b" = "ab" ∧
    fetch_web_content_clean "<STYLE>.x\x7b\x7d</style> hi" = "hi" := by
  refine ⟨clean_script_removed hpre hinner, clean_style_removed hpre hinner,
    stripTags_tag htpre htne htinner, ?_, ?_, ?_, ?_, ?_, ?_⟩
  · exact normSpace_space_eq _
  · exact normSpace_chain _
  · exact normSpace_head _
  · exact normSpace_last _
  · simp [fetch_web_content_clean, stripBlocks, stripTags, collapseWs, normSpace,
      pyStripLeft, pyStripRight, findCloseLen, closeAt, matchCI, boundaryOk, findGtLen,
      isSpaceChar, isWordChar, scriptTag, styleTag]
  · simp [fetch_web_content_clean, stripBlocks, stripTags, collapseWs, normSpace,
      pyStripLeft, pyStripRight, findCloseLen, closeAt, matchCI, boundaryOk, findGtLen,
      isSpaceChar, isWordChar, scriptTag, styleTag]

/-- Witness for C5 at concrete inputs: a page fragment with a script block,
one with a style block, a remaining tag with body div, and a raw string with
messy whitespace. -/
theorem C5_normalization_witness :
    (fetch_web_content_clean
        ⟨"a ".data ++ ('<' :: (scriptTag ++ ('>' :: ("x()".data ++
          ('<' :: ('/' :: (scriptTag ++ ('>' :: " b".data))))))))⟩ =
      fetch_web_content_clean ⟨"a ".data ++ " b".data⟩) ∧
    (fetch_web_content_clean
        ⟨"a ".data ++ ('<' :: (styleTag ++ ('>' :: ("x()".data ++
          ('<' :: ('/' :: (styleTag ++ ('>' :: " b".data))))))))⟩ =
      fetch_web_content_clean ⟨"a ".data ++ " b".data⟩) ∧
    (stripTags ("p ".data ++ '<' :: ("div".data ++ '>' :: "q".data)) =
      "p ".data ++ ' ' :: stripTags "q".data) ∧
    (∀ c ∈ (fetch_web_content_clean "  x\t\n y  ").data, isSpaceChar c = true → c = ' ') ∧
    List.Chain' noDoubleWs (fetch_web_content_clean "  x\t\n y  ").data ∧
    (∀ c, (fetch_web_content_clean "  x\t\n y  ").data.head? = some c →
      isSpaceChar c = false) ∧
    (∀ c, (fetch_web_content_clean "  x\t\n y  ").data.getLast? = some c →
      isSpaceChar c = false) ∧
    fetch_web_content_clean "a<SCRIPT x=1>evil()</ScRiPt>b" = "ab" ∧
    fetch_web_content_clean "<STYLE>.x\x7b\x7d</style> hi" = "hi" :=
  C5_normalization "a ".data "x()".data " b".data "p ".data "div".data "q".data
    "  x\t\n y  " (by decide) (by decide) (by decide) (by decide) (by decide)

/-! Lemmas about the load_existing_data model, for C6. -/

lemma jvScalarBeq_str_iff {v : JValue} {t : String} :
    jvScalarBeq v (.str t) = true ↔ v = .str t := by
  cases v <;> simp [jvScalarBeq]

lemma pySetAdd_str (s : List JValue) (t : String) :
    ∃ s2, pySetAdd s (.str t) = some s2 ∧ ∀ v, v ∈ s2 ↔ v ∈ s ∨ v = JValue.str t := by
  have hany : (s.any (fun x => jvScalarBeq x (.str t)) = true) ↔ JValue.str t ∈ s := by
    rw [List.any_eq_true]
    constructor
    · rintro ⟨x, hx, hbeq⟩
      exact (jvScalarBeq_str_iff.mp hbeq) ▸ hx
    · intro h
      exact ⟨_, h, jvScalarBeq_str_iff.mpr rfl⟩
  by_cases h : s.any (fun x => jvScalarBeq x (.str t)) = true
  · refine ⟨s, by simp [pySetAdd, h], fun v => ⟨Or.inl, ?_⟩⟩
    rintro (hv | rfl)
    · exact hv
    · exact hany.mp h
  · refine ⟨s ++ [JValue.str t], by simp [pySetAdd, h], fun v => ?_⟩
    simp [List.mem_append]

lemma pySetAddAll_str :
    ∀ (ts : List JValue), (∀ x ∈ ts, ∃ u, x = JValue.str u) →
    ∀ s, ∃ s2, pySetAddAll s ts = (s2, false) ∧ ∀ v, v ∈ s2 ↔ v ∈ s ∨ v ∈ ts
  | [], _, s => ⟨s, rfl, by simp⟩
  | x :: rest, h, s => by
    obtain ⟨u, rfl⟩ := h x (by simp)
    obtain ⟨s1, hs1, hmem1⟩ := pySetAdd_str s u
    obtain ⟨s2, hs2, hmem2⟩ :=
      pySetAddAll_str rest (fun y hy => h y (by simp [hy])) s1
    refine ⟨s2, ?_, fun v => ?_⟩
    · simp only [pySetAddAll, hs1]
      exact hs2
    · rw [hmem2, hmem1]
      simp [List.mem_cons, or_assoc]

lemma pySetUpdate_strList (s : List JValue) (ts : List JValue)
    (h : ∀ x ∈ ts, ∃ u, x = JValue.str u) :
    ∃ s2, pySetUpdate s (.arr ts) = (s2, false) ∧ ∀ v, v ∈ s2 ↔ v ∈ s ∨ v ∈ ts := by
  obtain ⟨s2, hs2, hmem⟩ := pySetAddAll_str ts h s
  exact ⟨s2, by simp only [pySetUpdate, pyIter]; exact hs2, hmem⟩

lemma mem_filterMap_jvKeyStr {ts : List JValue}
    (hts : ∀ x ∈ ts, ∃ u, x = JValue.str u) (v : JValue) :
    (∃ u ∈ ts.filterMap jvKeyStr, v = JValue.str u) ↔ v ∈ ts := by
  constructor
  · rintro ⟨u, hu, rfl⟩
    obtain ⟨x, hx, hkey⟩ := List.mem_filterMap.mp hu
    obtain ⟨w, rfl⟩ := hts x hx
    have hw : w = u := by simpa [jvKeyStr] using hkey
    exact hw ▸ hx
  · intro hv
    obtain ⟨u, rfl⟩ := hts v hv
    exact ⟨u, List.mem_filterMap.mpr ⟨_, hv, rfl⟩, rfl⟩

lemma any_key_eq_lookup (key : String) :
    ∀ fs : List (String × JValue),
      (fs.any (fun p => p.1 = key)) = (fs.lookup key).isSome
  | [] => rfl
  | (k, v) :: rest => by
    simp only [List.any_cons, List.lookup]
    by_cases h : key = k
    · subst h
      simp
    · have h2 : ¬ k = key := fun e => h e.symm
      have hbeq : (key == k) = false := by simp [h]
      simp [hbeq, h2, any_key_eq_lookup key rest]

lemma wfEvent_lookup {efs : List (String × JValue)} (h : wfEvent (.obj efs) = true)
    {idv : JValue} (hl : efs.lookup "id" = some idv) : ∃ u, idv = JValue.str u := by
  rw [wfEvent, hl] at h
  cases idv with
  | str u => exact ⟨u, rfl⟩
  | null => exact Bool.noConfusion h
  | bool b => exact Bool.noConfusion h
  | int n => exact Bool.noConfusion h
  | arr l => exact Bool.noConfusion h
  | obj o => exact Bool.noConfusion h

lemma processEvents_cons_id (ids : List JValue) (efs : List (String × JValue))
    (rest : List JValue) {u : String} {ids1 : List JValue}
    (hl : efs.lookup "id" = some (JValue.str u))
    (ha : pySetAdd ids (JValue.str u) = some ids1) :
    processEvents ids (JValue.obj efs :: rest) = processEvents ids1 rest := by
  have hb : (efs.any (fun p => p.1 = "id")) = true := by
    rw [any_key_eq_lookup, hl]
    rfl
  simp only [processEvents, pyContains, hb, pySubscript, hl, ha]

lemma processEvents_cons_noid (ids : List JValue) (efs : List (String × JValue))
    (rest : List JValue) (hl : efs.lookup "id" = none) :
    processEvents ids (JValue.obj efs :: rest) = processEvents ids rest := by
  have hb : (efs.any (fun p => p.1 = "id")) = false := by
    rw [any_key_eq_lookup, hl]
    rfl
  simp only [processEvents, pyContains, hb]

lemma processEvents_str :
    ∀ (evs : List JValue), evs.all wfEvent = true →
    ∀ ids, ∃ ids2, processEvents ids evs = (ids2, false) ∧
      ∀ v, v ∈ ids2 ↔ v ∈ ids ∨ ∃ u ∈ (evs.map eventIdOf).flatten, v = JValue.str u
  | [], _, ids => ⟨ids, rfl, by simp⟩
  | ev :: rest, h, ids => by
    simp only [List.all_cons, Bool.and_eq_true] at h
    obtain ⟨h1, h2⟩ := h
    cases ev with
    | obj efs =>
      by_cases hid : (efs.lookup "id").isSome
      · obtain ⟨idv, hidv⟩ := Option.isSome_iff_exists.mp hid
        obtain ⟨u, rfl⟩ := wfEvent_lookup h1 hidv
        obtain ⟨ids1, hadd, hm1⟩ := pySetAdd_str ids u
        obtain ⟨ids2, heq, hm2⟩ := processEvents_str rest h2 ids1
        refine ⟨ids2, ?_, fun v => ?_⟩
        · rw [processEvents_cons_id ids efs rest hidv hadd]
          exact heq
        · rw [hm2, hm1]
          simp only [List.map_cons, List.flatten_cons, List.mem_append, eventIdOf, hidv]
          constructor
          · rintro ((hv | rfl) | ⟨w, hw, rfl⟩)
            · exact Or.inl hv
            · exact Or.inr ⟨u, Or.inl (by simp), rfl⟩
            · exact Or.inr ⟨w, Or.inr hw, rfl⟩
          · rintro (hv | ⟨w, (hw | hw), rfl⟩)
            · exact Or.inl (Or.inl hv)
            · have hwu : w = u := by simpa using hw
              exact Or.inl (Or.inr (by rw [hwu]))
            · exact Or.inr ⟨w, hw, rfl⟩
      · have hnone : efs.lookup "id" = none := Option.not_isSome_iff_eq_none.mp hid
        obtain ⟨ids2, heq, hm2⟩ := processEvents_str rest h2 ids
        refine ⟨ids2, ?_, fun v => ?_⟩
        · rw [processEvents_cons_noid ids efs rest hnone]
          exact heq
        · rw [hm2]
          simp [eventIdOf, hnone]
    | null => simp [wfEvent] at h1
    | bool b => simp [wfEvent] at h1
    | int n => simp [wfEvent] at h1
    | str s => simp [wfEvent] at h1
    | arr l => simp [wfEvent] at h1

lemma isStrInst_exists {v : JValue} (h : isStrInst v = true) : ∃ u, v = JValue.str u := by
  cases v <;> simp_all [isStrInst]

lemma processItemTags_present (st : LoadState) (fs : List (String × JValue))
    {tv : JValue} (hl : fs.lookup "tags" = some tv) :
    processItemTags st (.obj fs) =
      ({ st with tags := (pySetUpdate st.tags tv).1 }, (pySetUpdate st.tags tv).2) := by
  have hb : (fs.any (fun p => p.1 = "tags")) = true := by
    rw [any_key_eq_lookup, hl]
    rfl
  simp only [processItemTags, pyContains, hb, if_true, pySubscript, hl]

lemma processItemTags_absent (st : LoadState) (fs : List (String × JValue))
    (hl : fs.lookup "tags" = none) :
    processItemTags st (.obj fs) = (st, false) := by
  have hb : (fs.any (fun p => p.1 = "tags")) = false := by
    rw [any_key_eq_lookup, hl]
    rfl
  simp [processItemTags, pyContains, hb]

lemma processItemEvents_present (st : LoadState) (fs : List (String × JValue))
    {evs : List JValue} (hl : fs.lookup "events" = some (.arr evs)) :
    processItemEvents st (.obj fs) =
      ({ st with ids := (processEvents st.ids evs).1 }, (processEvents st.ids evs).2) := by
  have hb : (fs.any (fun p => p.1 = "events")) = true := by
    rw [any_key_eq_lookup, hl]
    rfl
  simp only [processItemEvents, pyContains, hb, if_true, pySubscript, hl, pyIter]

lemma processItemEvents_absent (st : LoadState) (fs : List (String × JValue))
    (hl : fs.lookup "events" = none) :
    processItemEvents st (.obj fs) = (st, false) := by
  have hb : (fs.any (fun p => p.1 = "events")) = false := by
    rw [any_key_eq_lookup, hl]
    rfl
  simp [processItemEvents, pyContains, hb]

lemma processItem_wf (item : JValue) (hwf : wfItem item = true) (st : LoadState) :
    ∃ st2, processItem st item = (st2, false) ∧
      (∀ v, v ∈ st2.tags ↔ v ∈ st.tags ∨ ∃ u ∈ itemTags item, v = JValue.str u) ∧
      (∀ v, v ∈ st2.ids ↔ v ∈ st.ids ∨ ∃ u ∈ itemIds item, v = JValue.str u) := by
  cases item with
  | obj fs =>
    rw [wfItem] at hwf
    simp only [Bool.and_eq_true] at hwf
    obtain ⟨hT, hE⟩ := hwf
    have stage1 : ∃ st1, processItemTags st (.obj fs) = (st1, false) ∧
        (∀ v, v ∈ st1.tags ↔ v ∈ st.tags ∨ ∃ u ∈ itemTags (.obj fs), v = JValue.str u) ∧
        st1.ids = st.ids := by
      by_cases htag : (fs.lookup "tags").isSome
      · obtain ⟨tv, htv⟩ := Option.isSome_iff_exists.mp htag
        rw [htv] at hT
        cases tv with
        | arr ts =>
          have hT2 : ts.all isStrInst = true := hT
          have hstr : ∀ x ∈ ts, ∃ u, x = JValue.str u := fun x hx =>
            isStrInst_exists (List.all_eq_true.mp hT2 x hx)
          obtain ⟨tags1, hupd, hmemT⟩ := pySetUpdate_strList st.tags ts hstr
          refine ⟨{ st with tags := tags1 }, ?_, fun v => ?_, rfl⟩
          · rw [processItemTags_present st fs htv, hupd]
          · have hit : itemTags (.obj fs) = ts.filterMap jvKeyStr := by
              simp [itemTags, htv]
            show v ∈ tags1 ↔ _
            rw [hmemT v, hit, mem_filterMap_jvKeyStr hstr v]
        | null => simp at hT
        | bool b => simp at hT
        | int n => simp at hT
        | str u => simp at hT
        | obj o => simp at hT
      · have hnone := Option.not_isSome_iff_eq_none.mp htag
        refine ⟨st, processItemTags_absent st fs hnone, fun v => ?_, rfl⟩
        simp [itemTags, hnone]
    obtain ⟨st1, hs1, hm1, hids1⟩ := stage1
    have stage2 : ∃ st2, processItemEvents st1 (.obj fs) = (st2, false) ∧
        st2.tags = st1.tags ∧
        (∀ v, v ∈ st2.ids ↔ v ∈ st1.ids ∨ ∃ u ∈ itemIds (.obj fs), v = JValue.str u) := by
      by_cases hev : (fs.lookup "events").isSome
      · obtain ⟨ev, hevl⟩ := Option.isSome_iff_exists.mp hev
        rw [hevl] at hE
        cases ev with
        | arr evs =>
          have hE2 : evs.all wfEvent = true := hE
          obtain ⟨ids2, heq, hm2⟩ := processEvents_str evs hE2 st1.ids
          refine ⟨{ st1 with ids := ids2 }, ?_, rfl, fun v => ?_⟩
          · rw [processItemEvents_present st1 fs hevl, heq]
          · have hii : itemIds (.obj fs) = (evs.map eventIdOf).flatten := by
              simp [itemIds, hevl]
            show v ∈ ids2 ↔ _
            rw [hm2 v, hii]
        | null => simp at hE
        | bool b => simp at hE
        | int n => simp at hE
        | str u => simp at hE
        | obj o => simp at hE
      · have hnone := Option.not_isSome_iff_eq_none.mp hev
        refine ⟨st1, processItemEvents_absent st1 fs hnone, rfl, fun v => ?_⟩
        simp [itemIds, hnone]
    obtain ⟨st2, hs2, htags2, hm2⟩ := stage2
    refine ⟨st2, ?_, fun v => ?_, fun v => ?_⟩
    · simp only [processItem, hs1]
      exact hs2
    · rw [htags2]
      exact hm1 v
    · rw [hm2 v, hids1]
  | null => simp [wfItem] at hwf
  | bool b => simp [wfItem] at hwf
  | int n => simp [wfItem] at hwf
  | str s => simp [wfItem] at hwf
  | arr l => simp [wfItem] at hwf

lemma exists_mem_append {l1 l2 : List String} {Q : String → Prop} :
    (∃ u ∈ l1 ++ l2, Q u) ↔ (∃ u ∈ l1, Q u) ∨ ∃ u ∈ l2, Q u := by
  constructor
  · rintro ⟨u, hu, hq⟩
    rcases List.mem_append.mp hu with h | h
    · exact Or.inl ⟨u, h, hq⟩
    · exact Or.inr ⟨u, h, hq⟩
  · rintro (⟨u, hu, hq⟩ | ⟨u, hu, hq⟩)
    · exact ⟨u, List.mem_append.mpr (Or.inl hu), hq⟩
    · exact ⟨u, List.mem_append.mpr (Or.inr hu), hq⟩

lemma processItems_wf :
    ∀ (items : List JValue), items.all wfItem = true →
    ∀ st, ∃ st2, processItems st items = (st2, false) ∧
      (∀ v, v ∈ st2.tags ↔ v ∈ st.tags ∨
        ∃ u ∈ (items.map itemTags).flatten, v = JValue.str u) ∧
      (∀ v, v ∈ st2.ids ↔ v ∈ st.ids ∨
        ∃ u ∈ (items.map itemIds).flatten, v = JValue.str u)
  | [], _, st => ⟨st, rfl, by simp, by simp⟩
  | item :: rest, h, st => by
    simp only [List.all_cons, Bool.and_eq_true] at h
    obtain ⟨h1, h2⟩ := h
    obtain ⟨st1, hs1, hm1t, hm1i⟩ := processItem_wf item h1 st
    obtain ⟨st2, hs2, hm2t, hm2i⟩ := processItems_wf rest h2 st1
    refine ⟨st2, ?_, fun v => ?_, fun v => ?_⟩
    · simp only [processItems, hs1]
      exact hs2
    · rw [hm2t v, hm1t v, List.map_cons, List.flatten_cons, exists_mem_append, or_assoc]
    · rw [hm2i v, hm1i v, List.map_cons, List.flatten_cons, exists_mem_append, or_assoc]

lemma processFile_wf (file : Option JValue) (hwf : wfFile file = true) (st : LoadState) :
    ∃ st2 warned, processFile st file = (st2, warned) ∧ warned = file.isNone ∧
      (∀ v, v ∈ st2.tags ↔ v ∈ st.tags ∨ ∃ u ∈ fileTags file, v = JValue.str u) ∧
      (∀ v, v ∈ st2.ids ↔ v ∈ st.ids ∨ ∃ u ∈ fileIds file, v = JValue.str u) := by
  cases file with
  | none => exact ⟨st, true, rfl, rfl, by simp [fileTags], by simp [fileIds]⟩
  | some data =>
    by_cases htr : truthy data = true
    · cases data with
      | arr items =>
        have hwf2 : items.all wfItem = true := by
          simpa [wfFile, htr] using hwf
        obtain ⟨st2, hs2, hmt, hmi⟩ := processItems_wf items hwf2 st
        refine ⟨st2, false, ?_, rfl, fun v => ?_, fun v => ?_⟩
        · simp only [processFile, htr, Bool.true_eq_false, if_false, pyIter]
          exact hs2
        · rw [hmt v]
          rfl
        · rw [hmi v]
          rfl
      | null => simp [truthy] at htr
      | bool b =>
        simp [wfFile, htr] at hwf
      | int n =>
        simp [wfFile, htr] at hwf
      | str u =>
        simp [wfFile, htr] at hwf
      | obj o =>
        simp [wfFile, htr] at hwf
    · have hb : truthy data = false := by
        cases htruthy : truthy data
        · rfl
        · exact absurd htruthy htr
      have hft : fileTags (some data) = [] := by
        cases data with
        | arr items =>
          cases items with
          | nil => rfl
          | cons a l => simp [truthy] at hb
        | null => rfl
        | bool b2 => rfl
        | int n => rfl
        | str u => rfl
        | obj o => rfl
      have hfi : fileIds (some data) = [] := by
        cases data with
        | arr items =>
          cases items with
          | nil => rfl
          | cons a l => simp [truthy] at hb
        | null => rfl
        | bool b2 => rfl
        | int n => rfl
        | str u => rfl
        | obj o => rfl
      refine ⟨st, false, ?_, rfl, fun v => ?_, fun v => ?_⟩
      · simp [processFile, hb]
      · simp [hft]
      · simp [hfi]

lemma processFiles_wf :
    ∀ (files : List (Option JValue)), files.all wfFile = true →
    ∀ st w i, ∃ st2 w2, processFiles st w i files = (st2, w2) ∧
      (∀ v, v ∈ st2.tags ↔ v ∈ st.tags ∨
        ∃ u, v = JValue.str u ∧ ∃ f ∈ files, u ∈ fileTags f) ∧
      (∀ v, v ∈ st2.ids ↔ v ∈ st.ids ∨
        ∃ u, v = JValue.str u ∧ ∃ f ∈ files, u ∈ fileIds f) ∧
      (∀ j, j ∈ w2 ↔ j ∈ w ∨ ∃ k, files[k]? = some none ∧ j = i + k)
  | [], _, st, w, i => ⟨st, w, rfl, by simp, by simp, by simp⟩
  | f :: rest, h, st, w, i => by
    simp only [List.all_cons, Bool.and_eq_true] at h
    obtain ⟨h1, h2⟩ := h
    obtain ⟨st1, warned, hs1, hwarn, hm1t, hm1i⟩ := processFile_wf f h1 st
    obtain ⟨st2, w2, hs2, hm2t, hm2i, hw2⟩ :=
      processFiles_wf rest h2 st1 (if warned then w ++ [i] else w) (i + 1)
    refine ⟨st2, w2, ?_, fun v => ?_, fun v => ?_, fun j => ?_⟩
    · simp only [processFiles, hs1]
      exact hs2
    · rw [hm2t v, hm1t v]
      constructor
      · rintro ((hv | ⟨u, hu, rfl⟩) | ⟨u, rfl, g, hg, hu⟩)
        · exact Or.inl hv
        · exact Or.inr ⟨u, rfl, f, List.mem_cons_self f rest, hu⟩
        · exact Or.inr ⟨u, rfl, g, List.mem_cons_of_mem f hg, hu⟩
      · rintro (hv | ⟨u, rfl, g, hg, hu⟩)
        · exact Or.inl (Or.inl hv)
        · rcases List.mem_cons.mp hg with rfl | hg2
          · exact Or.inl (Or.inr ⟨u, hu, rfl⟩)
          · exact Or.inr ⟨u, rfl, g, hg2, hu⟩
    · rw [hm2i v, hm1i v]
      constructor
      · rintro ((hv | ⟨u, hu, rfl⟩) | ⟨u, rfl, g, hg, hu⟩)
        · exact Or.inl hv
        · exact Or.inr ⟨u, rfl, f, List.mem_cons_self f rest, hu⟩
        · exact Or.inr ⟨u, rfl, g, List.mem_cons_of_mem f hg, hu⟩
      · rintro (hv | ⟨u, rfl, g, hg, hu⟩)
        · exact Or.inl (Or.inl hv)
        · rcases List.mem_cons.mp hg with rfl | hg2
          · exact Or.inl (Or.inr ⟨u, hu, rfl⟩)
          · exact Or.inr ⟨u, rfl, g, hg2, hu⟩
    · rw [hw2 j]
      constructor
      · rintro (hj | ⟨k, hk, rfl⟩)
        · by_cases hwd : warned = true
          · rw [hwd] at hj
            simp only [if_true] at hj
            rcases List.mem_append.mp hj with hj2 | hj2
            · exact Or.inl hj2
            · have hji : j = i := by simpa using hj2
              refine Or.inr ⟨0, ?_, by omega⟩
              have hfn : f = none := by
                cases f with
                | none => rfl
                | some d => rw [hwd] at hwarn; exact absurd hwarn.symm (by simp)
              rw [hfn]
              simp
          · have hwf2 : warned = false := by
              cases warned
              · rfl
              · exact absurd rfl hwd
            rw [hwf2] at hj
            simp only [Bool.false_eq_true, if_false] at hj
            exact Or.inl hj
        · refine Or.inr ⟨k + 1, ?_, by omega⟩
          simpa using hk
      · rintro (hj | ⟨k, hk, rfl⟩)
        · refine Or.inl ?_
          by_cases hwd : warned = true
          · rw [hwd]
            simp only [if_true]
            exact List.mem_append.mpr (Or.inl hj)
          · have hwf2 : warned = false := by
              cases warned
              · rfl
              · exact absurd rfl hwd
            rw [hwf2]
            simpa using hj
        · cases k with
          | zero =>
            have hfn : f = none := by simpa using hk
            have hwd : warned = true := by rw [hwarn, hfn]; rfl
            refine Or.inl ?_
            rw [hwd]
            simp only [if_true]
            exact List.mem_append.mpr (Or.inr (by simp [Nat.add_zero]))
          | succ m =>
            refine Or.inr ⟨m, by simpa using hk, by omega⟩

lemma strLeB_total : ∀ a b : List Char, strLeB a b = true ∨ strLeB b a = true
  | [], _ => Or.inl rfl
  | _ :: _, [] => Or.inr rfl
  | x :: as2, y :: bs => by
    by_cases hxy : x = y
    · subst hxy
      rcases strLeB_total as2 bs with h | h
      · left
        rw [strLeB, if_pos rfl]
        exact h
      · right
        rw [strLeB, if_pos rfl]
        exact h
    · rcases lt_trichotomy x y with h | h | h
      · left
        rw [strLeB, if_neg hxy]
        simpa using h
      · exact absurd h hxy
      · right
        rw [strLeB, if_neg (fun e => hxy e.symm)]
        simpa using h

lemma strLeB_trans :
    ∀ a b c : List Char, strLeB a b = true → strLeB b c = true → strLeB a c = true
  | [], _, _, _, _ => rfl
  | x :: as2, [], c, hab, _ => by simp [strLeB] at hab
  | x :: as2, y :: bs, [], _, hbc => by simp [strLeB] at hbc
  | x :: as2, y :: bs, z :: cs, hab, hbc => by
    by_cases hxy : x = y
    · subst hxy
      rw [strLeB, if_pos rfl] at hab
      by_cases hxz : x = z
      · subst hxz
        rw [strLeB, if_pos rfl] at hbc ⊢
        exact strLeB_trans as2 bs cs hab hbc
      · rw [strLeB, if_neg hxz] at hbc ⊢
        exact hbc
    · rw [strLeB, if_neg hxy] at hab
      have hx : x < y := by simpa using hab
      by_cases hyz : y = z
      · subst hyz
        rw [strLeB, if_neg hxy]
        simpa using hx
      · rw [strLeB, if_neg hyz] at hbc
        have hy : y < z := by simpa using hbc
        have hxz : x < z := lt_trans hx hy
        rw [strLeB, if_neg (ne_of_lt hxz)]
        simpa using hxz

instance : IsTotal JValue jvStrLe :=
  ⟨fun a b => strLeB_total ((jvKeyStr a).getD "").data ((jvKeyStr b).getD "").data⟩

instance : IsTrans JValue jvStrLe :=
  ⟨fun a b c => strLeB_trans ((jvKeyStr a).getD "").data ((jvKeyStr b).getD "").data
    ((jvKeyStr c).getD "").data⟩

lemma pySorted_strElems (l : List JValue) (hl : ∀ v ∈ l, ∃ u, v = JValue.str u) :
    ∃ out, pySorted l = some out ∧ List.Sorted jvStrLe out ∧ ∀ v, v ∈ out ↔ v ∈ l := by
  have hall : l.all (fun v => (jvKeyStr v).isSome) = true := by
    rw [List.all_eq_true]
    intro v hv
    obtain ⟨u, rfl⟩ := hl v hv
    rfl
  exact ⟨l.insertionSort jvStrLe, by simp [pySorted, hall],
    List.sorted_insertionSort jvStrLe l, fun v => List.mem_insertionSort jvStrLe⟩

/-- C6: a store file that fails to parse is skipped with a warning and does
not abort the load; yet the load is NOT raise-free: a parsed file whose tags
mix integers and strings makes the final sorted() raise TypeError, so
load_existing_data can raise even though every file parses. -/
theorem C6_counterexample :
    load_existing_data [some (.arr [.obj [("tags", .arr [.int 1, .str "a"])]])] = none ∧
    load_existing_data
        [some (.arr [.obj [("tags", .arr [.str "b", .str "a"]),
           ("events", .arr [.obj [("id", .str "z-1")], .obj [("id", .str "a-1")]])]]),
         none] =
      some ([.str "a", .str "b"], [.str "a-1", .str "z-1"], [1]) := by
  exact ⟨rfl, rfl⟩

/-- C6: over well-formed store files (string tags and string event ids),
load_existing_data never raises: it returns the sorted union of the tags and
event ids of exactly the files that parse successfully, and warns exactly
once per file whose parse failed. -/
theorem C6_load_union_sorted (files : List (Option JValue))
    (hwf : files.all wfFile = true) :
    ∃ ts ids w, load_existing_data files = some (ts, ids, w) ∧
      List.Sorted jvStrLe ts ∧ List.Sorted jvStrLe ids ∧
      (∀ v, v ∈ ts ↔ ∃ u, v = JValue.str u ∧ ∃ f ∈ files, u ∈ fileTags f) ∧
      (∀ v, v ∈ ids ↔ ∃ u, v = JValue.str u ∧ ∃ f ∈ files, u ∈ fileIds f) ∧
      (∀ j, j ∈ w ↔ files[j]? = some none) := by
  obtain ⟨st2, w2, hrun, hmt, hmi, hw⟩ :=
    processFiles_wf files hwf { tags := [], ids := [] } [] 0
  have htstr : ∀ v ∈ st2.tags, ∃ u, v = JValue.str u := by
    intro v hv
    rcases (hmt v).mp hv with hv0 | ⟨u, hu, _⟩
    · simp at hv0
    · exact ⟨u, hu⟩
  have histr : ∀ v ∈ st2.ids, ∃ u, v = JValue.str u := by
    intro v hv
    rcases (hmi v).mp hv with hv0 | ⟨u, hu, _⟩
    · simp at hv0
    · exact ⟨u, hu⟩
  obtain ⟨ts, hts, hsortT, hmemT⟩ := pySorted_strElems st2.tags htstr
  obtain ⟨ids, hids, hsortI, hmemI⟩ := pySorted_strElems st2.ids histr
  refine ⟨ts, ids, w2, ?_, hsortT, hsortI, fun v => ?_, fun v => ?_, fun j => ?_⟩
  · simp only [load_existing_data, hrun, hts, hids]
  · rw [hmemT v, hmt v]
    simp
  · rw [hmemI v, hmi v]
    simp
  · rw [hw j]
    simp only [List.not_mem_nil, false_or]
    constructor
    · rintro ⟨k, hk, rfl⟩
      simpa using hk
    · intro hj
      exact ⟨j, hj, (Nat.zero_add j).symm⟩

theorem C6_load_union_sorted_witness :
    ([some (JValue.arr [JValue.obj [("tags", JValue.arr [JValue.str "b"])]]),
      none] : List (Option JValue)).all wfFile = true ∧
    ∃ ts ids w,
      load_existing_data
          [some (JValue.arr [JValue.obj [("tags", JValue.arr [JValue.str "b"])]]), none] =
        some (ts, ids, w) ∧
      List.Sorted jvStrLe ts ∧ List.Sorted jvStrLe ids ∧
      (∀ v, v ∈ ts ↔ ∃ u, v = JValue.str u ∧
        ∃ f ∈ ([some (JValue.arr [JValue.obj [("tags", JValue.arr [JValue.str "b"])]]),
                none] : List (Option JValue)), u ∈ fileTags f) ∧
      (∀ v, v ∈ ids ↔ ∃ u, v = JValue.str u ∧
        ∃ f ∈ ([some (JValue.arr [JValue.obj [("tags", JValue.arr [JValue.str "b"])]]),
                none] : List (Option JValue)), u ∈ fileIds f) ∧
      (∀ j, j ∈ w ↔
        ([some (JValue.arr [JValue.obj [("tags", JValue.arr [JValue.str "b"])]]),
          none] : List (Option JValue))[j]? = some none) :=
  ⟨rfl, C6_load_union_sorted
    [some (JValue.arr [JValue.obj [("tags", JValue.arr [JValue.str "b"])]]), none] rfl⟩

/-! Round-trip lemmas for to_yaml, for C4. -/

lemma stripPre_append (pre s : String) : stripPre pre (pre ++ s) = some s := by
  have hp : pre.data <+: (pre ++ s).data := by
    rw [String.data_append]
    exact ⟨s.data, rfl⟩
  rw [stripPre, if_pos hp, String.data_append, List.drop_left]

lemma stripQuoteEnd_append (s : String) : stripQuoteEnd (s ++ "\x27") = some s := by
  have h1 : (s ++ "\x27").data = s.data ++ [quoteChar] := by
    rw [String.data_append]
    rfl
  rw [stripQuoteEnd, h1]
  simp [List.reverse_append]

lemma not_prefix_of_mismatch (p l : List Char) (i : Nat) (hi : i < p.length)
    (hne : p[i]? ≠ l[i]?) : ¬ p <+: l := by
  rintro ⟨t, rfl⟩
  exact hne (List.getElem?_append_left hi).symm

lemma not_prefix_fixed (p fixed var : List Char) (i : Nat)
    (h1 : i < p.length) (h2 : i < fixed.length) (hne : p[i]? ≠ fixed[i]?) :
    ¬ p <+: (fixed ++ var) := by
  apply not_prefix_of_mismatch _ _ i h1
  rw [List.getElem?_append_left h2]
  exact hne

lemma stripPre_none {pre l : String} (h : ¬ pre.data <+: l.data) :
    stripPre pre l = none := by
  rw [stripPre, if_neg h]

lemma parseTagLines_render :
    ∀ (tags : List String) (evl : List String),
      parseTagLines (tags.map (fun t => "    - " ++ t) ++ "  events:" :: evl) =
        (tags, "  events:" :: evl)
  | [], evl => by
    have hne : stripPre "    - " "  events:" = none :=
      stripPre_none (by decide)
    simp only [List.map_nil, List.nil_append, parseTagLines, hne]
  | t :: tags, evl => by
    simp only [List.map_cons, List.cons_append, parseTagLines, stripPre_append,
      List.append_eq, parseTagLines_render tags evl]

lemma parseTimelinePairs_render :
    ∀ (tls : List PTimelineE) (tzs : String) (rest : List String),
      parseTimelinePairs
          ((tls.map tlLines).flatten ++ ("      timezone: " ++ tzs) :: rest) =
        some (tls, ("      timezone: " ++ tzs) :: rest)
  | [], tzs, rest => by
    have hne : stripPre "        - deadline: \x27" ("      timezone: " ++ tzs) = none := by
      apply stripPre_none
      rw [String.data_append]
      exact not_prefix_fixed _ _ _ 6 (by decide) (by decide) (by decide)
    simp only [List.map_nil, List.flatten_nil, List.nil_append, parseTimelinePairs, hne]
  | t :: tls, tzs, rest => by
    simp only [List.map_cons, List.flatten_cons, tlLines, List.cons_append,
      List.append_assoc, List.nil_append, parseTimelinePairs, stripPre_append,
      stripQuoteEnd_append, List.append_eq, parseTimelinePairs_render tls tzs rest]

lemma eventLines_len (e : PEventR) : 1 ≤ (eventLines e).length := by
  simp [eventLines]

lemma len_le_flatten_events :
    ∀ evs : List PEventR, evs.length ≤ ((evs.map eventLines).flatten).length
  | [] => by simp
  | e :: evs => by
    simp only [List.map_cons, List.flatten_cons, List.length_cons, List.length_append]
    have h1 := eventLines_len e
    have h2 := len_le_flatten_events evs
    omega

lemma parseEventBlocks_render :
    ∀ (evs : List PEventR) (fuel : Nat), evs.length ≤ fuel →
      parseEventBlocks fuel ((evs.map eventLines).flatten) = some evs
  | [], fuel, _ => by
    simp [parseEventBlocks]
  | e :: evs, fuel, h => by
    cases fuel with
    | zero => simp at h
    | succ f =>
      have hle : evs.length ≤ f := by
        simp only [List.length_cons] at h
        omega
      have hrec := parseEventBlocks_render evs f hle
      simp only [List.map_cons, List.flatten_cons, eventLines, List.cons_append,
        List.append_assoc, List.nil_append]
      simp [parseEventBlocks, stripPre_append, parseTimelinePairs_render, hrec]

lemma parseRecordLines_render (r : PRecord) :
    parseRecordLines (recordLines r) = some r := by
  have hev := parseEventBlocks_render r.events
    ((r.events.map eventLines).flatten).length (len_le_flatten_events r.events)
  simp only [recordLines, List.cons_append, List.nil_append]
  simp [parseRecordLines, stripPre_append, parseTagLines_render, hev,
    -List.length_flatten]

lemma joinNl_data : ∀ ls : List String, (joinNl ls).data = joinCh (ls.map String.data)
  | [] => rfl
  | [l] => rfl
  | l :: l2 :: rest => by
    show ((l ++ "\n") ++ joinNl (l2 :: rest)).data = _
    rw [String.data_append, String.data_append, joinNl_data (l2 :: rest)]
    show (l.data ++ [nlChar]) ++ _ = _
    rw [List.append_assoc]
    rfl

lemma splitLines_single : ∀ l : List Char, nlChar ∉ l → splitLines l = [l]
  | [], _ => rfl
  | c :: rest, h => by
    have hc : ¬ c = nlChar := fun e => h (e ▸ List.mem_cons_self c rest)
    have hr : nlChar ∉ rest := fun hm => h (List.mem_cons_of_mem c hm)
    rw [splitLines, if_neg hc, splitLines_single rest hr]

lemma splitLines_append : ∀ l cs : List Char, nlChar ∉ l →
    splitLines (l ++ nlChar :: cs) = l :: splitLines cs
  | [], cs, _ => by
    simp [splitLines]
  | c :: rest, cs, h => by
    have hc : ¬ c = nlChar := fun e => h (e ▸ List.mem_cons_self c rest)
    have hr : nlChar ∉ rest := fun hm => h (List.mem_cons_of_mem c hm)
    rw [List.cons_append, splitLines, if_neg hc, splitLines_append rest cs hr]

lemma splitLines_joinCh : ∀ lls : List (List Char), lls ≠ [] →
    (∀ l ∈ lls, nlChar ∉ l) → splitLines (joinCh lls) = lls
  | [], h, _ => absurd rfl h
  | [l], _, hn => by
    rw [show joinCh [l] = l from rfl, splitLines_single l (hn l (by simp))]
  | l :: l2 :: rest, _, hn => by
    rw [show joinCh (l :: l2 :: rest) = l ++ nlChar :: joinCh (l2 :: rest) from rfl,
      splitLines_append l _ (hn l (by simp)),
      splitLines_joinCh (l2 :: rest) (by simp)
        (fun x hx => hn x (List.mem_cons_of_mem l hx))]

lemma map_mk_map_data (ls : List String) :
    ((ls.map String.data).map fun l => String.mk l) = ls := by
  induction ls with
  | nil => rfl
  | cons s rest ih =>
    simp only [List.map_cons, ih]

lemma not_mem_of_noNl {s : String} (h : noNl s = true) : nlChar ∉ s.data := by
  intro hm
  simp only [noNl, Bool.not_eq_eq_eq_not, Bool.not_true, List.any_eq_false,
    decide_eq_false_iff_not] at h
  exact h nlChar hm rfl

lemma noNl_append {a b : String} (ha : noNl a = true) (hb : noNl b = true) :
    noNl (a ++ b) = true := by
  have ha2 : a.data.any (fun c => c = nlChar) = false := by
    simpa [noNl] using ha
  have hb2 : b.data.any (fun c => c = nlChar) = false := by
    simpa [noNl] using hb
  simp [noNl, String.data_append, List.any_append, ha2, hb2]

lemma tlLines_noNl (t : PTimelineE) (hd : noNl t.deadline = true)
    (hc : noNl t.comment = true) : ∀ l ∈ tlLines t, noNl l = true := by
  intro l hl
  simp only [tlLines, List.mem_cons, List.not_mem_nil, or_false] at hl
  rcases hl with rfl | rfl
  · exact noNl_append (by decide) (noNl_append hd (by decide))
  · exact noNl_append (by decide) (noNl_append hc (by decide))

lemma eventLines_noNl (e : PEventR) (h : wfEventR e = true) :
    ∀ l ∈ eventLines e, noNl l = true := by
  simp only [wfEventR, Bool.and_eq_true] at h
  obtain ⟨⟨⟨⟨⟨⟨hy, hi⟩, hl⟩, htz⟩, hda⟩, hpl⟩, htl⟩ := h
  intro l hl2
  simp only [eventLines, List.cons_append, List.nil_append, List.mem_cons,
    List.mem_append, List.mem_flatten, List.mem_map, List.not_mem_nil, or_false] at hl2
  rcases hl2 with rfl | rfl | rfl | rfl | ⟨ll, ⟨t, ht, rfl⟩, hlll⟩ | rfl | rfl | rfl
  · exact noNl_append (by decide) hy
  · exact noNl_append (by decide) hi
  · exact noNl_append (by decide) hl
  · decide
  · have htw := List.all_eq_true.mp htl t ht
    simp only [Bool.and_eq_true] at htw
    exact tlLines_noNl t htw.1 htw.2 l hlll
  · exact noNl_append (by decide) htz
  · exact noNl_append (by decide) hda
  · exact noNl_append (by decide) hpl

lemma recordLines_noNl (r : PRecord) (h : wfRecord r = true) :
    ∀ l ∈ recordLines r, noNl l = true := by
  simp only [wfRecord, Bool.and_eq_true] at h
  obtain ⟨⟨⟨⟨ht, hd⟩, hc⟩, htg⟩, hev⟩ := h
  intro l hl
  simp only [recordLines, List.cons_append, List.nil_append, List.mem_cons,
    List.mem_append, List.mem_flatten, List.mem_map, List.not_mem_nil, or_false] at hl
  rcases hl with rfl | rfl | rfl | rfl | ⟨t, ht2, rfl⟩ | rfl | ⟨ll, ⟨e, he, rfl⟩, hlll⟩
  · exact noNl_append (by decide) ht
  · exact noNl_append (by decide) hd
  · exact noNl_append (by decide) hc
  · decide
  · exact noNl_append (by decide) (List.all_eq_true.mp htg t ht2)
  · decide
  · exact eventLines_noNl e (List.all_eq_true.mp hev e he) l hlll

lemma parseBlock_render (r : PRecord) (h : wfRecord r = true) :
    parseBlock (joinNl (recordLines r)) = some r := by
  rw [parseBlock, joinNl_data,
    splitLines_joinCh ((recordLines r).map String.data) (by simp [recordLines])
      (by
        intro l hl
        obtain ⟨s, hs, rfl⟩ := List.mem_map.mp hl
        exact not_mem_of_noNl (recordLines_noNl r h s hs)),
    map_mk_map_data, parseRecordLines_render]


/-- C4: serialization of a record that passes validation is not total, so
the claimed round trip fails on valid records: validate_extracted_data never
checks the per-event date and place keys (nor the deadline/comment keys of
timeline entries), but to_yaml subscripts them unconditionally, so a record
that validates with valid = true and no errors makes to_yaml raise KeyError
instead of producing a text block. -/
theorem C4_counterexample :
    validate_extracted_data c4ValidNoPlace [] = some (mkValidation []) ∧
    (mkValidation []).valid = true ∧
    to_yaml c4ValidNoPlace = none := by
  exact ⟨rfl, rfl, rfl⟩

/-- C4: when every field to_yaml interpolates is present (title,
description, category, the tags, and each event's year, id, link, timeline
deadline/comment pairs, timezone, date and place, projected by projRecord)
and every interpolated text is newline-free, serializing with to_yaml and
re-parsing the resulting text block yields back exactly the projected
record: same title, same category, every tag in order, and for every event
the same id, year, link, timezone, place and all timeline deadline/comment
pairs. -/
theorem C4_round_trip (data : JValue) (r : PRecord)
    (hr : projRecord data = some r) (hwf : wfRecord r = true) :
    ∃ y, to_yaml data = some y ∧ parseBlock y = some r := by
  refine ⟨joinNl (recordLines r), ?_, parseBlock_render r hwf⟩
  simp [to_yaml, hr]

theorem C4_round_trip_witness :
    projRecord c4Full = some c4FullR ∧ wfRecord c4FullR = true ∧
    ∃ y, to_yaml c4Full = some y ∧ parseBlock y = some c4FullR :=
  ⟨rfl, rfl, C4_round_trip c4Full c4FullR rfl rfl⟩
